import Mathlib

/-!
# A verification development for the vt-go client library

This file gives a shallow embedding, in Lean, of the core data model and
algorithms of the vt-go client library (objects with dynamically typed
attribute bags, the cursor codec, and the paginated collection iterator),
together with theorems about them.

Conventions used throughout:
* Go `int` values are modelled as `Int`; Go `string` values as `String`
  (for the byte-oriented codec stages, as `List Nat` with entries below 256).
* Fallible Go functions returning `(T, error)` are modelled as
  `Except String T` or `Option T`.
* Go maps (`map[string]T`) are modelled as association lists with unique
  keys; insertion is `aupsert`, lookup is `alookup`.
-/

namespace VtGo

/-- Dynamically typed value as produced by Go's `encoding/json` decoder with
`UseNumber` enabled (see `Object.UnmarshalJSON` in `object.go`): a JSON
number is kept as its literal text (`json.Number`) instead of being converted
to a `float64`; objects become maps, arrays become slices. -/
inductive JValue where
  | null : JValue
  | boolean (b : Bool) : JValue
  | num (lit : String) : JValue
  | str (s : String) : JValue
  | arr (elems : List JValue) : JValue
  | obj (fields : List (String × JValue)) : JValue

/-- Lookup in an association list modelling a Go map. -/
def alookup {α : Type} : List (String × α) → String → Option α
  | [], _ => none
  | (k2, v) :: rest, k => if k2 = k then some v else alookup rest k

/-- Insertion (`m[k] = v`) into an association list modelling a Go map:
replaces the binding if the key is present, appends it otherwise. -/
def aupsert {α : Type} : List (String × α) → String → α → List (String × α)
  | [], k, v => [(k, v)]
  | (k2, v2) :: rest, k, v =>
    if k2 = k then (k2, v) :: rest else (k2, v2) :: aupsert rest k v

/-- Pagination links of an API object or response (`Links` in `object.go`). -/
structure Links where
  self : String := ""
  next : String := ""
deriving DecidableEq

/-- A related object as stored in a decoded relationship.  In the Go code the
related objects are full `*Object` values; no verified property below looks
at a related object's own relationship map, so they are modelled one level
deep (identity plus attribute bags). -/
structure RelatedObject where
  id : String := ""
  type : String := ""
  attributes : List (String × JValue) := []
  contextAttributes : List (String × JValue) := []

/-- Modelled from the spec and the uses in `object.go` (the declaration of
`relationshipData` itself is not among the provided files; `object.go` reads
and writes its fields `Data`, `IsOneToOne` and `Objects`): the raw payload of
a relationship together with the decoded form. -/
structure RelationshipData where
  data : JValue := .null
  isOneToOne : Bool := false
  objects : List RelatedObject := []

/-- The structure holding the data returned by the API for an object
(`objectData` in `object.go`). -/
structure ObjectData where
  id : String := ""
  type : String := ""
  attributes : List (String × JValue) := []
  contextAttributes : List (String × JValue) := []
  relationships : List (String × RelationshipData) := []
  links : Option Links := none

/-- A VirusTotal API object (`Object` in `object.go`): the data returned by
the API plus the list of attribute names modified locally via `Set`. -/
structure Object where
  data : ObjectData := {}
  modifiedAttributes : List String := []

/-- `Object.Get` from `object.go`: looks the attribute name up in the
attributes map and fails when it is absent. -/
def Object.Get (obj : Object) (attr : String) : Except String JValue :=
  match alookup obj.data.attributes attr with
  | some value => .ok value
  | none => .error ("attribute \"" ++ attr ++ "\" does not exists")

/-- `Object.getAttributeNumber` from `object.go`: fetches an attribute and
requires it to be a `json.Number` (modelled as the number's literal text). -/
def Object.getAttributeNumber (obj : Object) (attr : String) :
    Except String String :=
  match obj.Get attr with
  | .error e => .error e
  | .ok (.num n) => .ok n
  | .ok _ => .error ("context attribute \"" ++ attr ++ "\" is not a number")

/-- Decimal digit value of a character, `none` for non-digits. -/
def digitVal (c : Char) : Option Nat :=
  if '0' ≤ c ∧ c ≤ '9' then some (c.toNat - 48) else none

/-- Accumulate the value of a decimal digit string, failing on the first
non-digit (helper for `goParseInt`). -/
def decDigitsAux : List Char → Nat → Option Nat
  | [], acc => some acc
  | c :: rest, acc =>
    match digitVal c with
    | some d => decDigitsAux rest (10 * acc + d)
    | none => none

/-- `strconv.ParseInt(s, 10, 64)` as used by `json.Number.Int64`: optional
sign, decimal digits, and a 64-bit range check. -/
def goParseInt (s : String) : Except String Int :=
  let signed : Bool × List Char :=
    match s.data with
    | '-' :: rest => (true, rest)
    | '+' :: rest => (false, rest)
    | l => (false, l)
  match signed with
  | (_, []) => .error "invalid syntax"
  | (neg, ds) =>
    match decDigitsAux ds 0 with
    | none => .error "invalid syntax"
    | some n =>
      if neg then
        if n ≤ 2 ^ 63 then .ok (-(n : Int)) else .error "value out of range"
      else
        if n < 2 ^ 63 then .ok (n : Int) else .error "value out of range"

/-- `Object.GetInt64` from `object.go`: fetch the attribute as a number and
convert it with `json.Number.Int64` (i.e. `strconv.ParseInt`). -/
def Object.GetInt64 (obj : Object) (attr : String) : Except String Int :=
  match obj.getAttributeNumber attr with
  | .ok n => goParseInt n
  | .error e => .error e

/-- `Object.Set` from `object.go`: appends the attribute name to
`modifiedAttributes` and overwrites the stored value (always succeeds). -/
def Object.Set (obj : Object) (attr : String) (value : JValue) : Object :=
  { obj with
    modifiedAttributes := obj.modifiedAttributes ++ [attr],
    data := { obj.data with
              attributes := aupsert obj.data.attributes attr value } }

/-- Decoding a JSON value into a Go `string` struct field: a missing field or
`null` leaves the zero value, a string is taken verbatim, anything else is a
type error (`json: cannot unmarshal ...`). -/
def fieldString (fields : List (String × JValue)) (k : String) :
    Except String String :=
  match alookup fields k with
  | none => .ok ""
  | some .null => .ok ""
  | some (.str s) => .ok s
  | some _ => .error ("json: cannot unmarshal into string field " ++ k)

/-- Decoding a JSON value into a Go `map[string]interface{}` struct field:
missing or `null` leaves the zero (nil) map, an object gives its fields,
anything else is a type error. -/
def fieldMap (fields : List (String × JValue)) (k : String) :
    Except String (List (String × JValue)) :=
  match alookup fields k with
  | none => .ok []
  | some .null => .ok []
  | some (.obj fs) => .ok fs
  | some _ => .error ("json: cannot unmarshal into map field " ++ k)

/-- `json.Unmarshal(v.Data, &o)` for a single related object, as performed by
the relationship loop of `Object.UnmarshalJSON`: succeeds on a JSON object
(field by field) and on `null` (leaving the zero `Object`), fails on arrays
and scalars. -/
def unmarshalRelated (v : JValue) : Except String RelatedObject :=
  match v with
  | .null => .ok {}
  | .obj fields =>
    match fieldString fields "id", fieldString fields "type",
          fieldMap fields "attributes", fieldMap fields "context_attributes" with
    | .ok i, .ok t, .ok a, .ok c =>
      .ok { id := i, type := t, attributes := a, contextAttributes := c }
    | .error e, _, _, _ => .error e
    | _, .error e, _, _ => .error e
    | _, _, .error e, _ => .error e
    | _, _, _, .error e => .error e
  | _ => .error "json: cannot unmarshal into Go value of type vt.objectData"

/-- `json.Unmarshal(v.Data, &v.Objects)` for a one-to-many relationship, as
performed by the relationship loop of `Object.UnmarshalJSON`: the payload
must be an array (or `null`, giving a nil slice); every element is decoded as
an object (a `null` element leaves a zero `*Object` entry). -/
def unmarshalRelatedList (v : JValue) : Except String (List RelatedObject) :=
  match v with
  | .null => .ok []
  | .arr elems => elems.mapM unmarshalRelated
  | _ => .error "json: cannot unmarshal into Go value of type []*vt.Object"

/-- The per-relationship step of `Object.UnmarshalJSON` (lines 129-146 of
`object.go`): first try to decode the raw payload as a single object; on
success mark the relationship one-to-one and store the object — unless the
decoded object has an empty ID and an empty type (which happens for a `null`
payload), in which case `Objects` is set to nil.  If the single-object decode
fails, decode the payload as an array of objects. -/
def decodeRelationship (r : RelationshipData) : Except String RelationshipData :=
  match unmarshalRelated r.data with
  | .ok o =>
    .ok { r with
          isOneToOne := true,
          objects := if o.id = "" ∧ o.type = "" then [] else r.objects ++ [o] }
  | .error _ =>
    match unmarshalRelatedList r.data with
    | .ok objs => .ok { r with objects := objs }
    | .error e => .error e

/-- Decoding a JSON value into a `relationshipData` entry: the `data` field
is a `json.RawMessage`, kept verbatim. -/
def unmarshalRelationshipData (v : JValue) : Except String RelationshipData :=
  match v with
  | .null => .ok {}
  | .obj fields => .ok { data := (alookup fields "data").getD .null }
  | _ => .error "json: cannot unmarshal into Go value of type vt.relationshipData"

/-- `decoder.Decode(&od)` of `Object.UnmarshalJSON`: decodes the envelope
fields of `objectData` (with `UseNumber`, so attribute values keep numeric
literals verbatim). -/
def unmarshalObjectData (v : JValue) : Except String ObjectData :=
  match v with
  | .null => .ok {}
  | .obj fields =>
    match fieldString fields "id", fieldString fields "type",
          fieldMap fields "attributes", fieldMap fields "context_attributes",
          fieldMap fields "relationships" with
    | .ok i, .ok t, .ok a, .ok c, .ok rels =>
      match rels.mapM (fun p => (unmarshalRelationshipData p.2).map (p.1, ·)) with
      | .ok rels2 =>
        .ok { id := i, type := t, attributes := a, contextAttributes := c,
              relationships := rels2 }
      | .error e => .error e
    | .error e, _, _, _, _ => .error e
    | _, .error e, _, _, _ => .error e
    | _, _, .error e, _, _ => .error e
    | _, _, _, .error e, _ => .error e
    | _, _, _, _, .error e => .error e
  | _ => .error "json: cannot unmarshal into Go value of type vt.objectData"

/-- `Object.UnmarshalJSON` from `object.go`: decode the `objectData`
envelope with `UseNumber`, then run the relationship decode loop over every
relationship entry. -/
def Object.UnmarshalJSON (v : JValue) : Except String Object :=
  match unmarshalObjectData v with
  | .error e => .error e
  | .ok od =>
    match od.relationships.mapM (fun p => (decodeRelationship p.2).map (p.1, ·)) with
    | .error e => .error e
    | .ok rels => .ok { data := { od with relationships := rels } }

/-- `modifiedObject.MarshalJSON` from `object.go`: the partial payload for
update requests.  It builds an `objectData` holding only the id, the type and
the attributes named in `modifiedAttributes` (each with its current value);
context attributes, relationships and links are left at their zero values,
which `json.Marshal` omits (`omitempty`). -/
def modifiedObjectMarshal (obj : Object) : ObjectData :=
  { id := obj.data.id
    type := obj.data.type
    attributes :=
      obj.modifiedAttributes.foldl
        (fun m attr => aupsert m attr ((alookup obj.data.attributes attr).getD .null))
        [] }

/-- An iteration position (`cursor` in the iterator file): the link to fetch
in order to continue, plus the count of items of that page already yielded.
The Go `Offset` field has type `int`, hence `Int` here; every offset the
library itself produces is non-negative. -/
structure Cursor where
  link : String := ""
  offset : Int := 0
deriving DecidableEq

/-! ## Cursor codec

`cursor.encode` serializes the cursor as JSON (`encoding/json`), compresses
the bytes with `compress/flate` at best compression, and renders the result
with the unpadded URL-safe base64 alphabet (`base64.RawURLEncoding`);
`cursor.decode` reverses the pipeline.  The JSON, UTF-8 and base64 stages
are embedded in full below.  The DEFLATE stage is an external collaborator
(the Go standard library); it is modelled by an executable lossless
byte-stream compressor (`flateCompress`/`flateDecompress`, a run-length
scheme), which captures the only property of `compress/flate` the library
relies on: decompression exactly inverts compression, and any corrupted
stream surfaces as a decode error. -/

/-- The character for a decimal digit value. -/
def digitChar (d : Nat) : Char := Char.ofNat (48 + d)

/-- Digits of `n`, most significant first, by repeated division (the `fuel`
argument, instantiated with `n` itself, makes the recursion structural). -/
def natDigitsAux : Nat → Nat → List Char
  | 0, _ => []
  | fuel + 1, n =>
    if n = 0 then [] else natDigitsAux fuel (n / 10) ++ [digitChar (n % 10)]

/-- Minimal decimal representation of a `Nat`, most significant digit
first. -/
def natDigits (n : Nat) : List Char :=
  if n = 0 then ['0'] else natDigitsAux n n

/-- Minimal decimal representation of a Go `int`, as produced by
`strconv.AppendInt` inside the JSON encoder. -/
def intChars (i : Int) : List Char :=
  if i < 0 then '-' :: natDigits i.natAbs else natDigits i.toNat

/-- Lower-case hexadecimal digit character (the JSON encoder's `hex`
alphabet). -/
def hexDigitChar (d : Nat) : Char :=
  if d < 10 then Char.ofNat (48 + d) else Char.ofNat (87 + d)

/-- How Go's `encoding/json` encoder (with its default HTML escaping, as
used by `json.NewEncoder`) renders one character of a string: quote,
backslash and ASCII controls are escaped (`\n`, `\r`, `\t` specially, other
controls as `\u00XX`); `<`, `>`, `&` and the line separators U+2028/U+2029
are HTML-escaped; everything else is emitted verbatim. -/
def jsonEscapeChar (c : Char) : List Char :=
  if c = '\"' then ['\\', '\"']
  else if c = '\\' then ['\\', '\\']
  else if c = '\n' then ['\\', 'n']
  else if c = '\r' then ['\\', 'r']
  else if c = '\t' then ['\\', 't']
  else if c.toNat < 32 then
    ['\\', 'u', '0', '0', hexDigitChar (c.toNat / 16), hexDigitChar (c.toNat % 16)]
  else if c = '<' then ['\\', 'u', '0', '0', '3', 'c']
  else if c = '>' then ['\\', 'u', '0', '0', '3', 'e']
  else if c = '&' then ['\\', 'u', '0', '0', '2', '6']
  else if c.toNat = 0x2028 then ['\\', 'u', '2', '0', '2', '8']
  else if c.toNat = 0x2029 then ['\\', 'u', '2', '0', '2', '9']
  else [c]

/-- JSON string-body escaping, character by character. -/
def jsonEscapeList : List Char → List Char
  | [] => []
  | c :: rest => jsonEscapeChar c ++ jsonEscapeList rest

/-- Hexadecimal digit value of a character, `none` for non-hex-digits. -/
def hexVal (c : Char) : Option Nat :=
  if '0' ≤ c ∧ c ≤ '9' then some (c.toNat - 48)
  else if 'a' ≤ c ∧ c ≤ 'f' then some (c.toNat - 87)
  else if 'A' ≤ c ∧ c ≤ 'F' then some (c.toNat - 55)
  else none

/-- Character from a scalar value, mapping the surrogate range (which only a
malformed `\uXXXX` escape can produce) to U+FFFD like Go's decoder. -/
def uCharOfNat (n : Nat) : Char :=
  if n < 0xD800 then Char.ofNat n
  else if 0xE000 ≤ n then Char.ofNat n
  else Char.ofNat 0xFFFD

/-- Prepend a character under `Option` (helper for the parsers). -/
def consCh (c : Char) : Option (List Char × List Char) → Option (List Char × List Char)
  | none => none
  | some (s, rest) => some (c :: s, rest)

/-- Parser for a JSON string body (input starts right after the opening
quote): unescapes until the closing quote and returns the content together
with the rest of the input. -/
def parseJsonStringBody : List Char → Option (List Char × List Char)
  | [] => none
  | c :: rest =>
    if c = '\"' then some ([], rest)
    else if c = '\\' then
      match rest with
      | 'n' :: r => consCh '\n' (parseJsonStringBody r)
      | 'r' :: r => consCh '\r' (parseJsonStringBody r)
      | 't' :: r => consCh '\t' (parseJsonStringBody r)
      | 'b' :: r => consCh (Char.ofNat 8) (parseJsonStringBody r)
      | 'f' :: r => consCh (Char.ofNat 12) (parseJsonStringBody r)
      | '/' :: r => consCh '/' (parseJsonStringBody r)
      | '\"' :: r => consCh '\"' (parseJsonStringBody r)
      | '\\' :: r => consCh '\\' (parseJsonStringBody r)
      | 'u' :: h1 :: h2 :: h3 :: h4 :: r =>
        match hexVal h1, hexVal h2, hexVal h3, hexVal h4 with
        | some v1, some v2, some v3, some v4 =>
          consCh (uCharOfNat (4096 * v1 + 256 * v2 + 16 * v3 + v4))
            (parseJsonStringBody r)
        | _, _, _, _ => none
      | _ => none
    else consCh c (parseJsonStringBody rest)

/-- Expect an exact literal prefix, returning the rest of the input. -/
def parseLit : List Char → List Char → Option (List Char)
  | [], l => some l
  | _ :: _, [] => none
  | c :: cs, x :: xs => if x = c then parseLit cs xs else none

/-- Split off the maximal leading run of decimal digits (as digit values). -/
def takeDigits : List Char → List Nat × List Char
  | [] => ([], [])
  | c :: rest =>
    match digitVal c with
    | some d => ((d :: (takeDigits rest).1), (takeDigits rest).2)
    | none => ([], c :: rest)

/-- Value of a big-endian digit list. -/
def digitsToNat (ds : List Nat) : Nat := ds.foldl (fun a d => 10 * a + d) 0

/-- Parse a non-empty run of decimal digits. -/
def parseNatChars (l : List Char) : Option (Nat × List Char) :=
  match takeDigits l with
  | ([], _) => none
  | (ds, rest) => some (digitsToNat ds, rest)

/-- Parse an optionally signed decimal integer. -/
def parseIntChars (l : List Char) : Option (Int × List Char) :=
  match l with
  | [] => none
  | c :: rest =>
    if c = '-' then (parseNatChars rest).map (fun p => (-(p.1 : Int), p.2))
    else (parseNatChars (c :: rest)).map (fun p => ((p.1 : Int), p.2))

/-- The serialized characters up to and including the opening quote of the
link value. -/
def cursorJsonPrefix : List Char :=
  ['{', '\"', 'L', 'i', 'n', 'k', '\"', ':', '\"']

/-- The characters between the link value and the offset value. -/
def cursorJsonSep : List Char :=
  [',', '\"', 'O', 'f', 'f', 's', 'e', 't', '\"', ':']

/-- `json.NewEncoder(...).Encode(c)` for a `cursor` value: the struct is
serialized with its field names (`Link`, `Offset`, in declaration order),
and the encoder appends a newline. -/
def jsonEncodeCursor (c : Cursor) : List Char :=
  cursorJsonPrefix ++
    (jsonEscapeList c.link.data ++
      ('\"' :: (cursorJsonSep ++ (intChars c.offset ++ ['}', '\n']))))

/-- `json.NewDecoder(...).Decode(&c)` for a `cursor` value, on the canonical
shape produced by the encoder (Go's decoder is more lenient about field
order and whitespace; the library only ever feeds it its own output).
Trailing input after the closing brace — the encoder's newline — is left
unread, as `json.Decoder.Decode` does. -/
def parseCursorJson (l : List Char) : Option Cursor :=
  match parseLit cursorJsonPrefix l with
  | none => none
  | some r1 =>
    match parseJsonStringBody r1 with
    | none => none
    | some (link, r2) =>
      match parseLit cursorJsonSep r2 with
      | none => none
      | some r3 =>
        match parseIntChars r3 with
        | none => none
        | some (off, r4) =>
          match parseLit ['}'] r4 with
          | none => none
          | some _ => some { link := String.mk link, offset := off }

/-- UTF-8 encoding of one character (Go strings are UTF-8 bytes). -/
def utf8EncodeChar (c : Char) : List Nat :=
  if c.toNat < 0x80 then [c.toNat]
  else if c.toNat < 0x800 then [0xC0 + c.toNat / 64, 0x80 + c.toNat % 64]
  else if c.toNat < 0x10000 then
    [0xE0 + c.toNat / 4096, 0x80 + c.toNat / 64 % 64, 0x80 + c.toNat % 64]
  else
    [0xF0 + c.toNat / 262144, 0x80 + c.toNat / 4096 % 64, 0x80 + c.toNat / 64 % 64,
     0x80 + c.toNat % 64]

/-- UTF-8 encoding of a character list. -/
def utf8EncodeList : List Char → List Nat
  | [] => []
  | c :: rest => utf8EncodeChar c ++ utf8EncodeList rest

/-- Is a byte a UTF-8 continuation byte? -/
def isCont (b : Nat) : Bool := 0x80 ≤ b && b < 0xC0

/-- Prepend a character under `Option` (helper for the UTF-8 decoder). -/
def consC (c : Char) : Option (List Char) → Option (List Char)
  | none => none
  | some s => some (c :: s)

mutual

/-- UTF-8 decoding of a byte list, failing on malformed sequences.  The
decoder consumes the leading byte, then the expected continuation bytes one
at a time (`utf8Cont1`/`utf8Cont2`/`utf8Cont3` handle a partially decoded
scalar that still needs 1, 2 or 3 continuation bytes). -/
def utf8DecodeList : List Nat → Option (List Char)
  | [] => some []
  | b1 :: rest =>
    if b1 < 0x80 then consC (Char.ofNat b1) (utf8DecodeList rest)
    else if b1 < 0xC0 then none
    else if b1 < 0xE0 then utf8Cont1 (b1 - 0xC0) rest
    else if b1 < 0xF0 then utf8Cont2 (b1 - 0xE0) rest
    else if b1 < 0xF8 then utf8Cont3 (b1 - 0xF0) rest
    else none

/-- Consume the last continuation byte of a multi-byte sequence. -/
def utf8Cont1 (acc : Nat) : List Nat → Option (List Char)
  | [] => none
  | b :: rest =>
    if isCont b then consC (uCharOfNat (acc * 64 + (b - 0x80))) (utf8DecodeList rest)
    else none

/-- Consume the second-to-last continuation byte. -/
def utf8Cont2 (acc : Nat) : List Nat → Option (List Char)
  | [] => none
  | b :: rest => if isCont b then utf8Cont1 (acc * 64 + (b - 0x80)) rest else none

/-- Consume the third-to-last continuation byte. -/
def utf8Cont3 (acc : Nat) : List Nat → Option (List Char)
  | [] => none
  | b :: rest => if isCont b then utf8Cont2 (acc * 64 + (b - 0x80)) rest else none

end

/-- Length of the maximal leading run of the byte `b` (helper for the
DEFLATE collaborator model). -/
def rleRun (b : Nat) : List Nat → Nat
  | [] => 0
  | x :: rest => if x = b then rleRun b rest + 1 else 0

/-- One pass of the run-length compressor: `b` is the byte of the current
run and `k` how many times it has occurred (1 ≤ k ≤ 255); emits `(count,
byte)` pairs (helper for `flateCompress`). -/
def rleStep : List Nat → Nat → Nat → List Nat
  | [], b, k => [k, b]
  | x :: rest, b, k =>
    if x = b ∧ k < 255 then rleStep rest b (k + 1)
    else k :: b :: rleStep rest x 1

/-- Modelled stand-in for the `compress/flate` collaborator (DEFLATE at
`BestCompression`): an executable lossless byte-stream compressor encoding
maximal runs (capped at 255) as `(count, byte)` pairs.  The library relies
only on losslessness of the deflate stage, which this model shares. -/
def flateCompress : List Nat → List Nat
  | [] => []
  | b :: rest => rleStep rest b 1

/-- Inverse of `flateCompress`; fails on corrupted streams (a zero count or
a truncated pair), the counterpart of `flate.NewReader` read errors. -/
def flateDecompress : List Nat → Option (List Nat)
  | [] => some []
  | k :: b :: rest =>
    if k = 0 then none
    else (flateDecompress rest).map (fun bs => List.replicate k b ++ bs)
  | _ => none

/-- The `base64.RawURLEncoding` alphabet. -/
def b64Char (n : Nat) : Char :=
  if n < 26 then Char.ofNat (65 + n)
  else if n < 52 then Char.ofNat (97 + (n - 26))
  else if n < 62 then Char.ofNat (48 + (n - 52))
  else if n = 62 then '-' else '_'

/-- Value of a `base64.RawURLEncoding` alphabet character. -/
def b64Val (c : Char) : Option Nat :=
  if 'A' ≤ c ∧ c ≤ 'Z' then some (c.toNat - 65)
  else if 'a' ≤ c ∧ c ≤ 'z' then some (c.toNat - 97 + 26)
  else if '0' ≤ c ∧ c ≤ '9' then some (c.toNat - 48 + 52)
  else if c = '-' then some 62
  else if c = '_' then some 63
  else none

/-- `base64.RawURLEncoding` encoding: three bytes become four characters;
a final quantum of one or two bytes becomes two or three characters, with no
padding. -/
def b64Encode : List Nat → List Char
  | b1 :: b2 :: b3 :: rest =>
    b64Char (b1 / 4) :: b64Char (b1 % 4 * 16 + b2 / 16) ::
    b64Char (b2 % 16 * 4 + b3 / 64) :: b64Char (b3 % 64) :: b64Encode rest
  | [b1, b2] => [b64Char (b1 / 4), b64Char (b1 % 4 * 16 + b2 / 16), b64Char (b2 % 16 * 4)]
  | [b1] => [b64Char (b1 / 4), b64Char (b1 % 4 * 16)]
  | [] => []

/-- The base64 characters `cursor.encode` actually emits: the bytes written
through `base64.NewEncoder` are encoded three at a time into four-character
blocks, and since `encode` returns without ever calling `Close` on the
encoder, the buffered final quantum of one or two bytes is dropped instead
of being flushed as a final two- or three-character block. -/
def b64EncodeNoClose : List Nat → List Char
  | b1 :: b2 :: b3 :: rest =>
    b64Char (b1 / 4) :: b64Char (b1 % 4 * 16 + b2 / 16) ::
    b64Char (b2 % 16 * 4 + b3 / 64) :: b64Char (b3 % 64) :: b64EncodeNoClose rest
  | [] => []
  | [_] => []
  | [_, _] => []

/-- `base64.RawURLEncoding` decoding; fails on characters outside the
alphabet or an impossible length. -/
def b64Decode : List Char → Option (List Nat)
  | [] => some []
  | [c1, c2] =>
    match b64Val c1, b64Val c2 with
    | some v1, some v2 => some [v1 * 4 + v2 / 16]
    | _, _ => none
  | [c1, c2, c3] =>
    match b64Val c1, b64Val c2, b64Val c3 with
    | some v1, some v2, some v3 => some [v1 * 4 + v2 / 16, v2 % 16 * 16 + v3 / 4]
    | _, _, _ => none
  | c1 :: c2 :: c3 :: c4 :: rest =>
    match b64Val c1, b64Val c2, b64Val c3, b64Val c4 with
    | some v1, some v2, some v3, some v4 =>
      (b64Decode rest).map
        (fun bs => (v1 * 4 + v2 / 16) :: (v2 % 16 * 16 + v3 / 4) :: (v3 % 4 * 64 + v4) :: bs)
    | _, _, _, _ => none
  | [_] => none

/-- `cursor.encode` from the iterator file: an empty link yields the empty
string; otherwise the JSON serialization of the cursor is compressed and
written through a `base64.NewEncoder` that the function never closes, so
only the complete three-byte groups of the compressed stream reach the
returned string and a final partial quantum is silently dropped. -/
def cursorEncode (c : Cursor) : String :=
  if c.link = "" then ""
  else String.mk (b64EncodeNoClose (flateCompress (utf8EncodeList (jsonEncodeCursor c))))

/-- `cursor.decode` from the iterator file: the empty string resets the
cursor to `{Link: "", Offset: 0}`; otherwise the encode pipeline is reversed
exactly, any stage failure surfacing as an error. -/
def cursorDecode (s : String) : Except String Cursor :=
  if s = "" then .ok { link := "", offset := 0 }
  else
    match b64Decode s.data with
    | none => .error "invalid cursor"
    | some bs =>
      match flateDecompress bs with
      | none => .error "invalid cursor"
      | some bs2 =>
        match utf8DecodeList bs2 with
        | none => .error "invalid cursor"
        | some chars =>
          match parseCursorJson chars with
          | none => .error "invalid cursor"
          | some c => .ok c

/-! ## The collection iterator

The iterator couples a background producer goroutine (`Iterator.iterate`)
with a consumer (`Iterator.Next`/`Get`/`Cursor`/`Error`) through a buffered
channel.  The producer is modelled as a pure function from the server
(a function from a link to a fetch outcome) to the list of events it
performs, with a fuel bound on the number of loop iterations; the channel
delivery protocol (`sendToChannel`) always succeeds in this model, i.e. the
consumer never cancels — cancellation is a real-time concern outside the
claims verified here.  The consumer is a step function on the iterator's
consumer-visible state, fed with what a channel receive returns
(`some` item, `some` error, or `none` for a closed channel). -/

/-- Outcome of `Iterator.getMoreObjects`: either an error (URL parse failure,
transport failure or API error) or the decoded page together with the
response's pagination links. -/
inductive FetchResult (α : Type) where
  | err (e : String) : FetchResult α
  | page (objects : List α) (links : Links) : FetchResult α

/-- Events performed by the background producer: a page request, the delivery
of an item with its cursor or of an error value, an abnormal abort (runtime
panic of the slice expression `objects[skip:]`), and the normal loop exit
that closes the channel. -/
inductive Event (α : Type) where
  | fetch (link : String) : Event α
  | item (object : α) (cursor : Cursor) : Event α
  | errorItem (e : String) : Event α
  | panicked : Event α
  | closed : Event α
deriving DecidableEq

/-- State of the background producer loop (fields of `Iterator` used by
`iterate`): the pagination links of the most recent response, the in-page
skip count, the number of items sent, and the configured limit. -/
structure Producer where
  links : Links := {}
  skip : Int := 0
  sent : Int := 0
  limit : Int := 0

/-- The inner `for i, object := range objects` loop of `Iterator.iterate`
(lines 249-262): each item is sent with its cursor; the last item of the page
gets the page's next link with offset 0, every other item gets the page's
self link with offset `skip + i + 1`.  `total` is `len(objects)` and `i` the
running index. -/
def sendObjects {α : Type} (self next : String) (skip : Int) (total : Nat) :
    Nat → List α → List (Event α)
  | _, [] => []
  | i, o :: rest =>
    .item o (if i = total - 1 then { link := next, offset := 0 }
             else { link := self, offset := skip + (i : Int) + 1 }) ::
    sendObjects self next skip total (i + 1) rest

/-- Length of the item list produced by a fetch outcome (an error leaves the
`objs` slice nil, i.e. of length 0). -/
def fetchLen {α : Type} : FetchResult α → Nat
  | .err _ => 0
  | .page objs _ => objs.length

/-- `Iterator.iterate` from the iterator file, as the list of events the
producer performs.  One unit of fuel is one iteration of the outer loop.
Each iteration: check the limit, fetch the next page (`getMoreObjects`), on
error send the error value through the channel (the loop then terminates
through the empty-page check — unless the unchecked slice `objects[skip:]`
panics first); on success update the links, evaluate `objects[skip:]`
(panicking when `skip` is not between 0 and `len(objects)`), send every
remaining item with its cursor, and stop when the page was empty or there is
no next link, else continue with `skip = 0`. -/
def iterate {α : Type} (fetch : String → FetchResult α) :
    Nat → Producer → List (Event α)
  | 0, _ => []
  | fuel + 1, st =>
    if st.limit = 0 ∨ st.sent < st.limit then
      .fetch st.links.next ::
      match fetch st.links.next with
      | .err e =>
        .errorItem e ::
        (if st.skip < 0 ∨ 0 < st.skip then [.panicked] else [.closed])
      | .page objs links2 =>
        if st.skip < 0 ∨ (objs.length : Int) < st.skip then [.panicked]
        else
          let objs2 := objs.drop st.skip.toNat
          sendObjects links2.self links2.next st.skip objs2.length 0 objs2 ++
          (if objs2.length = 0 ∨ links2.next = "" then [.closed]
           else iterate fetch fuel
                  { st with links := links2, skip := 0,
                            sent := st.sent + (objs2.length : Int) })
    else [.closed]

/-- Consumer-visible state of an `Iterator`: the cached current object
(`next`), its encoded cursor, the sticky error, the count of yielded items
and the limit. -/
structure Consumer (α : Type) where
  next : Option α := none
  cursor : String := ""
  err : Option String := none
  count : Int := 0
  limit : Int := 0

/-- What a receive from the iterator's channel returns: an item with its
cursor (`collectionObject`), an error value, or — when the channel has been
closed — nothing. -/
inductive ChanItem (α : Type) where
  | co (object : α) (cursor : Cursor) : ChanItem α
  | errVal (e : String) : ChanItem α

/-- `Iterator.Next` from the iterator file as a step function: returns the
updated consumer state and the boolean `Next` returns.  If the limit has
been reached, return `false` without touching the channel.  Otherwise a
received item replaces the current object, stores its encoded cursor and
increments the count; a received error clears the current object and records
the error; a closed channel leaves everything unchanged.  The return value
is `ok && it.next != nil`. -/
def iterNext {α : Type} (it : Consumer α) (recv : Option (ChanItem α)) :
    Consumer α × Bool :=
  if 0 < it.limit ∧ it.count = it.limit then (it, false)
  else
    match recv with
    | some (.co o c) =>
      ({ it with next := some o, cursor := cursorEncode c, count := it.count + 1 },
       true)
    | some (.errVal e) => ({ it with next := none, err := some e }, false)
    | none => (it, false)

/-- A sequence of `Next` calls, given the corresponding channel receives. -/
def runConsumer {α : Type} (it : Consumer α) (recvs : List (Option (ChanItem α))) :
    Consumer α :=
  recvs.foldl (fun s r => (iterNext s r).1) it

/-- `IteratorOptions` from the iterator file. -/
structure IteratorOptions where
  limit : Int := 0
  batchSize : Int := 0
  cursor : String := ""
  filter : String := ""

/-- A `net/url.URL` as far as `newIterator` manipulates it: the part before
the query string, plus the query parameters (`url.Values`, modelled as an
ordered key/value list; `q.Add` appends).  Percent-encoding of parameter
values is not modelled. -/
structure GoURL where
  base : String := ""
  query : List (String × String) := []

/-- Lexicographic (byte-wise) order on strings as character lists, the order
`sort.Strings` uses on the query keys. -/
def charListLt : List Char → List Char → Bool
  | [], [] => false
  | [], _ :: _ => true
  | _ :: _, [] => false
  | a :: as, b :: bs =>
    if a.toNat < b.toNat then true
    else if b.toNat < a.toNat then false
    else charListLt as bs

/-- Stable insertion of a parameter into a key-sorted parameter list: the
new entry goes after every entry with a key less than its own and before
entries with an equal or greater key seen later (helper for `queryEncode`).
-/
def insertByKey (p : String × String) : List (String × String) → List (String × String)
  | [] => [p]
  | q :: rest =>
    if charListLt q.1.data p.1.data then q :: insertByKey p rest else p :: q :: rest

/-- Stable sort of the parameter list by key (insertion sort). -/
def sortByKey : List (String × String) → List (String × String)
  | [] => []
  | p :: rest => insertByKey p (sortByKey rest)

/-- `url.Values.Encode`: renders the parameters sorted by key (the sort is
stable, preserving the order of values sharing a key). -/
def queryEncode (q : List (String × String)) : String :=
  String.intercalate "&" ((sortByKey q).map (fun p => p.1 ++ "=" ++ p.2))

/-- `URL.String()` after `u.RawQuery = q.Encode()`: the base followed by
`?` and the encoded query when there are parameters. -/
def GoURL.render (u : GoURL) : String :=
  if u.query.isEmpty then u.base else u.base ++ "?" ++ queryEncode u.query

/-- The initial producer configuration a fresh `Iterator` hands to the
`iterate` goroutine: the configured limit, the first fetch link
(`it.links.Next`) and the initial skip count. -/
structure IterInit where
  limit : Int := 0
  linksNext : String := ""
  skip : Int := 0
deriving DecidableEq

/-- `newIterator` from the iterator file: a non-empty `options.Cursor` is
decoded (construction fails if that fails) and provides the first fetch link
and the skip count; otherwise the first fetch link is the URL extended with
a `limit` parameter (when `BatchSize > 0`) and a `filter` parameter (when
`Filter` is non-empty), and the skip count is 0. -/
def newIterator (u : GoURL) (options : IteratorOptions) :
    Except String IterInit :=
  if options.cursor ≠ "" then
    match cursorDecode options.cursor with
    | .error e => .error e
    | .ok c => .ok { limit := options.limit, linksNext := c.link, skip := c.offset }
  else
    .ok { limit := options.limit
          linksNext :=
            GoURL.render
              { u with query :=
                  (u.query ++
                    (if options.batchSize > 0
                     then [("limit", String.mk (intChars options.batchSize))] else [])) ++
                  (if options.filter ≠ "" then [("filter", options.filter)] else []) }
          skip := 0 }

/-- A sequence of `Set` calls applied in order (harness for stating
properties quantified over "every sequence of Set calls"). -/
def applySets (obj : Object) (sets : List (String × JValue)) : Object :=
  sets.foldl (fun o p => o.Set p.1 p.2) obj

/-- The value of the last `Set` call for a given attribute name in a call
sequence, if any (the reference notion of "last write wins"). -/
def lastSetValue (sets : List (String × JValue)) (a : String) : Option JValue :=
  (sets.reverse.find? (fun p => p.1 == a)).map Prod.snd

/-- Scanner over a producer trace: walking the events while counting
delivered items (starting from the given count), checks that every page
request happens strictly before the count reaches the limit. -/
def fetchRespectsLimit {α : Type} (limit : Int) : Int → List (Event α) → Bool
  | _, [] => true
  | c, .fetch _ :: rest => decide (c < limit) && fetchRespectsLimit limit c rest
  | c, .item _ _ :: rest => fetchRespectsLimit limit (c + 1) rest
  | c, .errorItem _ :: rest => fetchRespectsLimit limit c rest
  | c, .panicked :: rest => fetchRespectsLimit limit c rest
  | c, .closed :: rest => fetchRespectsLimit limit c rest

/-- The attribute bag of the spec's dotted-path example:
`{"super": {"data": 1, "complex": {"data": true, "x": 1234}},
  "list": [{"data": 1}, {"data": 2}]}` (numbers as the literals the
`UseNumber` decoder keeps). -/
def dottedPathExampleObject : Object :=
  { data := { attributes :=
      [("super", .obj [("data", .num "1"),
                       ("complex", .obj [("data", .boolean true),
                                         ("x", .num "1234")])]),
       ("list", .arr [.obj [("data", .num "1")],
                      .obj [("data", .num "2")]])] } }

/-! ## Map model lemmas -/

theorem alookup_aupsert {α : Type} (m : List (String × α)) (k : String) (v : α)
    (k2 : String) :
    alookup (aupsert m k v) k2 = if k = k2 then some v else alookup m k2 := by
  induction m with
  | nil => simp [aupsert, alookup]
  | cons p rest ih =>
    obtain ⟨pk, pv⟩ := p
    by_cases h1 : pk = k
    · subst h1
      simp only [aupsert, if_pos rfl, alookup]
      by_cases h2 : pk = k2 <;> simp [h2]
    · simp only [aupsert, if_neg h1, alookup]
      by_cases h2 : pk = k2
      · subst h2
        simp [Ne.symm h1]
      · simp [h2, ih]

theorem aupsert_keys {α : Type} (m : List (String × α)) (k : String) (v : α) :
    (aupsert m k v).map Prod.fst =
      if k ∈ m.map Prod.fst then m.map Prod.fst else m.map Prod.fst ++ [k] := by
  induction m with
  | nil => simp [aupsert]
  | cons p rest ih =>
    obtain ⟨pk, pv⟩ := p
    by_cases h1 : pk = k
    · subst h1
      simp [aupsert]
    · simp only [aupsert, if_neg h1, List.map_cons, ih]
      by_cases h2 : k ∈ rest.map Prod.fst
      · simp [h2, Ne.symm h1]
      · simp [h2, Ne.symm h1]

theorem aupsert_keys_nodup {α : Type} (m : List (String × α)) (k : String) (v : α)
    (h : (m.map Prod.fst).Nodup) : ((aupsert m k v).map Prod.fst).Nodup := by
  rw [aupsert_keys]
  by_cases h2 : k ∈ m.map Prod.fst
  · simpa [h2]
  · simpa [h2, List.nodup_append]

theorem alookup_isSome_iff {α : Type} (m : List (String × α)) (k : String) :
    (alookup m k).isSome ↔ k ∈ m.map Prod.fst := by
  induction m with
  | nil => simp [alookup]
  | cons p rest ih =>
    obtain ⟨pk, pv⟩ := p
    by_cases h1 : pk = k
    · subst h1; simp [alookup]
    · simp [alookup, h1, ih, Ne.symm h1]

/-! ## C4: dotted-path attribute access -/

/-- C4.  The claim states that `Get(path)` resolves dotted paths (segment by
segment, with `[i]` indexing sequences), as the repository's own test
`TestGetObject` asserts (`vt_test.go`, `o.Get("super.complex.data")` is
expected to return `true`).  The `Object.Get` in `object.go` however is a
flat, single-key map lookup: on the spec's example attributes it fails with
a not-found error for the path `super.complex.data`, even though the nested
boolean is present (second conjunct: following the path by hand through the
nested maps reaches `true`).  The claim is right about the intended
behaviour and the code contradicts its own test: a code bug. -/
theorem get_is_flat_lookup_fails_on_dotted_path :
    dottedPathExampleObject.Get "super.complex.data" =
      .error "attribute \"super.complex.data\" does not exists" ∧
    ((alookup dottedPathExampleObject.data.attributes "super").bind
        (fun v => match v with | .obj fs => alookup fs "complex" | _ => none)).bind
        (fun v => match v with | .obj fs => alookup fs "data" | _ => none) =
      some (.boolean true) := by
  constructor <;> rfl

/-! ## C5: numeric fidelity through decode and accessor -/

/-- C5.  Decoding an object whose attribute holds the integer
`9007199254740993` (2^53+1) and reading it back with `GetInt64` yields
exactly that integer: the `UseNumber` decoder keeps the literal (first
conjunct — the stored attribute value is the verbatim `json.Number`
literal), and `GetInt64` converts it with `strconv.ParseInt`, so no float64
rounding happens at any stage (second conjunct). -/
theorem integer_fidelity_2_53_plus_1 :
    (Object.UnmarshalJSON
        (.obj [("id", .str "obj_id"), ("type", .str "file"),
               ("attributes", .obj [("big", .num "9007199254740993")])])).map
        (fun o => alookup o.data.attributes "big") =
      .ok (some (.num "9007199254740993")) ∧
    (Object.UnmarshalJSON
        (.obj [("id", .str "obj_id"), ("type", .str "file"),
               ("attributes", .obj [("big", .num "9007199254740993")])])).bind
        (fun o => o.GetInt64 "big") =
      .ok 9007199254740993 := by
  constructor <;> rfl

/-! ## C6: partial-encode of the modified view -/

theorem applySets_data (d : ObjectData) (ml : List String)
    (sets : List (String × JValue)) :
    (applySets { data := d, modifiedAttributes := ml } sets).data =
      { d with attributes := sets.foldl (fun m p => aupsert m p.1 p.2) d.attributes } ∧
    (applySets { data := d, modifiedAttributes := ml } sets).modifiedAttributes =
      ml ++ sets.map Prod.fst := by
  induction sets generalizing d ml with
  | nil => simp [applySets]
  | cons p rest ih =>
    have step :
        applySets { data := d, modifiedAttributes := ml } (p :: rest) =
          applySets
            { data := { d with attributes := aupsert d.attributes p.1 p.2 },
              modifiedAttributes := ml ++ [p.1] } rest := rfl
    rw [step]
    obtain ⟨h1, h2⟩ := ih { d with attributes := aupsert d.attributes p.1 p.2 } (ml ++ [p.1])
    refine ⟨h1.trans ?_, h2.trans ?_⟩
    · simp
    · simp

theorem lastSetValue_cons (p : String × JValue) (sets : List (String × JValue))
    (a : String) :
    lastSetValue (p :: sets) a =
      match lastSetValue sets a with
      | some v => some v
      | none => if p.1 = a then some p.2 else none := by
  unfold lastSetValue
  rw [List.reverse_cons, List.find?_append]
  rcases h : sets.reverse.find? (fun q => q.1 == a) with _ | q
  · by_cases hp : p.1 = a
    · simp [h, hp, List.find?]
    · have hb : (p.1 == a) = false := beq_eq_false_iff_ne.2 hp
      simp [h, hp, List.find?, hb]
  · simp [h]

theorem lastSetValue_eq_none_iff (sets : List (String × JValue)) (a : String) :
    lastSetValue sets a = none ↔ a ∉ sets.map Prod.fst := by
  simp only [lastSetValue, Option.map_eq_none', List.find?_eq_none, List.mem_reverse,
    beq_iff_eq, List.mem_map, not_exists]
  constructor
  · intro h q hq
    exact h q hq.1 hq.2
  · intro h q hq hqa
    exact h q ⟨hq, hqa⟩

theorem alookup_foldl_aupsert (sets : List (String × JValue))
    (A : List (String × JValue)) (a : String) :
    alookup (sets.foldl (fun m p => aupsert m p.1 p.2) A) a =
      match lastSetValue sets a with
      | some v => some v
      | none => alookup A a := by
  induction sets generalizing A with
  | nil => simp [lastSetValue]
  | cons p rest ih =>
    rw [List.foldl_cons, ih, lastSetValue_cons]
    rcases h : lastSetValue rest a with _ | v
    · simp only
      rw [alookup_aupsert]
      by_cases hp : p.1 = a <;> simp [hp]
    · simp only

theorem alookup_modified_fold (f : String → JValue) (ml : List String)
    (m0 : List (String × JValue)) (a : String) :
    alookup (ml.foldl (fun m attr => aupsert m attr (f attr)) m0) a =
      if a ∈ ml then some (f a) else alookup m0 a := by
  induction ml generalizing m0 with
  | nil => simp
  | cons x rest ih =>
    rw [List.foldl_cons, ih]
    by_cases hx : a ∈ rest
    · simp [hx]
    · by_cases hxa : x = a
      · subst hxa
        simp [hx, alookup_aupsert]
      · simp [hx, Ne.symm hxa, alookup_aupsert, hxa]

theorem modified_fold_keys_nodup (f : String → JValue) (ml : List String)
    (m0 : List (String × JValue)) (h : (m0.map Prod.fst).Nodup) :
    (((ml.foldl (fun m attr => aupsert m attr (f attr)) m0)).map Prod.fst).Nodup := by
  induction ml generalizing m0 with
  | nil => simpa
  | cons x rest ih =>
    rw [List.foldl_cons]
    exact ih _ (aupsert_keys_nodup _ _ _ h)

/-- C6.  Marshalling the modified view of an object after any sequence of
`Set` calls produces an `objectData` holding exactly the id, the type, and
one attribute key per distinct name ever passed to `Set` (the key list is
duplicate-free and coincides with the set of names in the call sequence),
each mapped to the value of the last `Set` for that name; context
attributes, relationships and links are at their zero values, which the
`omitempty` tags drop from the JSON payload.  In particular, setting the
same attribute twice with `X` then `Y` yields that key exactly once, with
value `Y`. -/
theorem modified_view_marshal (init : ObjectData) (sets : List (String × JValue)) :
    (modifiedObjectMarshal (applySets { data := init } sets)).id = init.id ∧
    (modifiedObjectMarshal (applySets { data := init } sets)).type = init.type ∧
    (modifiedObjectMarshal (applySets { data := init } sets)).contextAttributes = [] ∧
    (modifiedObjectMarshal (applySets { data := init } sets)).relationships = [] ∧
    (modifiedObjectMarshal (applySets { data := init } sets)).links = none ∧
    ((modifiedObjectMarshal (applySets { data := init } sets)).attributes.map
        Prod.fst).Nodup ∧
    (∀ a, a ∈ (modifiedObjectMarshal (applySets { data := init } sets)).attributes.map
            Prod.fst ↔ a ∈ sets.map Prod.fst) ∧
    (∀ a, alookup (modifiedObjectMarshal (applySets { data := init } sets)).attributes a =
            lastSetValue sets a) := by
  obtain ⟨hdata, hml⟩ := applySets_data init [] sets
  unfold modifiedObjectMarshal
  rw [hdata, hml]
  simp only [List.nil_append]
  refine ⟨by trivial, by trivial, by trivial, by trivial, by trivial, ?_, ?_, ?_⟩
  · exact modified_fold_keys_nodup _ _ _ (by simp)
  · intro a
    rw [← alookup_isSome_iff, alookup_modified_fold]
    by_cases ha : a ∈ sets.map Prod.fst <;> simp [ha, alookup]
  · intro a
    rw [alookup_modified_fold]
    by_cases ha : a ∈ sets.map Prod.fst
    · rcases hv : lastSetValue sets a with _ | v
      · exact absurd ((lastSetValue_eq_none_iff sets a).1 hv) (not_not.2 ha)
      · simp only [ha, if_pos]
        rw [alookup_foldl_aupsert, hv]
        simp
    · rw [if_neg ha]
      exact ((lastSetValue_eq_none_iff sets a).2 ha).symm

/-! ## C7: relationship decode -/

theorem mapM_except_length {α β : Type} (f : α → Except String β) :
    ∀ (l : List α) (res : List β), l.mapM f = .ok res → res.length = l.length := by
  intro l
  induction l with
  | nil =>
    intro res h
    simp only [List.mapM_nil, pure, Except.pure] at h
    cases h
    rfl
  | cons x rest ih =>
    intro res h
    rw [List.mapM_cons] at h
    cases hfx : f x with
    | error e => rw [hfx] at h; simp [Bind.bind, Except.bind] at h
    | ok y =>
      rw [hfx] at h
      cases hrest : rest.mapM f with
      | error e => rw [hrest] at h; simp [Bind.bind, Except.bind] at h
      | ok ys =>
        rw [hrest] at h
        simp only [Bind.bind, Except.bind, pure, Except.pure] at h
        cases h
        simp [ih ys hrest]

/-- C7 (counterexample).  The per-relationship decode in
`Object.UnmarshalJSON` detects the zero-object case by checking whether the
decoded object has an empty ID and an empty type — a test that holds not
only for a `null` payload.  The non-`null` single-object payload `{}`
decodes successfully, yet yields a one-to-one relationship with zero related
objects, refuting the claim's "on success the relationship is one-to-one
with exactly one related object, except that a null payload ...". -/
theorem relationship_decode_counterexample :
    decodeRelationship { data := .obj [] } =
      .ok { data := .obj [], isOneToOne := true, objects := [] } ∧
    JValue.obj [] ≠ JValue.null ∧
    ([] : List RelatedObject).length ≠ 1 := by
  refine ⟨rfl, by simp, by simp⟩

/-- C7 (amended).  Object decode handles each relationship by first
attempting to decode its raw payload as a single object: on success the
relationship is one-to-one, with zero related objects when the decoded
object has an empty id and an empty type (in particular for a `null`
payload) and with exactly that one object otherwise; a payload that is an
array of N objects decodes as not one-to-one with exactly N related
objects. -/
theorem relationship_decode :
    (decodeRelationship { data := .null } =
        .ok { data := .null, isOneToOne := true, objects := [] }) ∧
    (∀ (v : JValue) (o : RelatedObject), unmarshalRelated v = .ok o →
        ¬(o.id = "" ∧ o.type = "") →
        decodeRelationship { data := v } =
          .ok { data := v, isOneToOne := true, objects := [o] }) ∧
    (∀ (v : JValue) (o : RelatedObject), unmarshalRelated v = .ok o →
        o.id = "" → o.type = "" →
        decodeRelationship { data := v } =
          .ok { data := v, isOneToOne := true, objects := [] }) ∧
    (∀ (elems : List JValue) (objs : List RelatedObject),
        elems.mapM unmarshalRelated = .ok objs →
        decodeRelationship { data := .arr elems } =
          .ok { data := .arr elems, isOneToOne := false, objects := objs } ∧
        objs.length = elems.length) := by
  refine ⟨rfl, ?_, ?_, ?_⟩
  · intro v o h hne
    unfold decodeRelationship
    simp [h, hne]
  · intro v o h hid hty
    unfold decodeRelationship
    simp [h, hid, hty]
  · intro elems objs h
    constructor
    · unfold decodeRelationship
      have h1 : unmarshalRelated (.arr elems) =
          .error "json: cannot unmarshal into Go value of type vt.objectData" := rfl
      have h2 : unmarshalRelatedList (.arr elems) = elems.mapM unmarshalRelated := rfl
      simp only [h1, h2, h]
    · exact mapM_except_length unmarshalRelated elems objs h

/-- Witness for `relationship_decode`: a single-object payload with a
non-empty id gives one-to-one with exactly one object, and a two-element
array payload gives not-one-to-one with exactly two objects. -/
theorem relationship_decode_witness :
    decodeRelationship { data := .obj [("id", .str "x"), ("type", .str "file")] } =
      .ok { data := .obj [("id", .str "x"), ("type", .str "file")],
            isOneToOne := true,
            objects := [{ id := "x", type := "file" }] } ∧
    decodeRelationship { data := .arr [.obj [("id", .str "a")], .obj [("id", .str "b")]] } =
      .ok { data := .arr [.obj [("id", .str "a")], .obj [("id", .str "b")]],
            isOneToOne := false,
            objects := [{ id := "a" }, { id := "b" }] } ∧
    ([{ id := "a" }, { id := "b" }] : List RelatedObject).length =
      [JValue.obj [("id", .str "a")], JValue.obj [("id", .str "b")]].length := by
  refine ⟨relationship_decode.2.1 _ { id := "x", type := "file" } rfl (by simp),
    (relationship_decode.2.2.2 [.obj [("id", .str "a")], .obj [("id", .str "b")]]
      [{ id := "a" }, { id := "b" }] (by rfl)).1,
    (relationship_decode.2.2.2 [.obj [("id", .str "a")], .obj [("id", .str "b")]]
      [{ id := "a" }, { id := "b" }] (by rfl)).2⟩

/-! ## C3: failure mid-stream -/

/-- C3 (counterexample).  After a successful advance (current object `1`),
receiving an error does NOT leave `Get()` at the last successfully
advanced-to object: the error case of `Iterator.Next` executes
`it.next = nil`, so the current object becomes nil, refuting the claim that
`Get()` is unchanged by the failure. -/
theorem next_error_clears_current_counterexample :
    (iterNext ({ next := some 1, cursor := "abc", count := 1 } : Consumer Nat)
        (some (.errVal "boom"))).1.next = none ∧
    ({ next := some 1, cursor := "abc", count := 1 } : Consumer Nat).next = some 1 ∧
    (none : Option Nat) ≠ some 1 := by
  refine ⟨rfl, rfl, by simp⟩

/-- C3 (amended).  If iteration fails mid-stream (the channel delivers an
error after successful advances), `Next` returns false, `Error()` returns
that error and keeps returning it on subsequent calls (the channel is closed
afterwards, and a closed-channel receive leaves the state unchanged), and
`Cursor()` and the yield count still reflect the last successfully
advanced-to object — but `Get()` returns nil: the error case of
`Iterator.Next` clears the current object rather than preserving it. -/
theorem next_error_behavior {α : Type} (it : Consumer α) (e : String)
    (h : it.limit = 0 ∨ it.count < it.limit) :
    (iterNext it (some (.errVal e))).2 = false ∧
    (iterNext it (some (.errVal e))).1.err = some e ∧
    (iterNext it (some (.errVal e))).1.cursor = it.cursor ∧
    (iterNext it (some (.errVal e))).1.count = it.count ∧
    (iterNext it (some (.errVal e))).1.next = none ∧
    (iterNext (iterNext it (some (.errVal e))).1 none).1.err = some e ∧
    (iterNext (iterNext it (some (.errVal e))).1 none).2 = false := by
  have hcond : ¬(0 < it.limit ∧ it.count = it.limit) := by
    rcases h with h | h
    · intro hc; omega
    · intro hc; omega
  unfold iterNext
  simp [hcond]

/-- Witness for `next_error_behavior` at a concrete mid-stream state. -/
theorem next_error_behavior_witness :
    (iterNext ({ next := some 7, cursor := "cur", count := 3, limit := 5 } : Consumer Nat)
        (some (.errVal "boom"))).2 = false ∧
    (iterNext ({ next := some 7, cursor := "cur", count := 3, limit := 5 } : Consumer Nat)
        (some (.errVal "boom"))).1.err = some "boom" ∧
    (iterNext ({ next := some 7, cursor := "cur", count := 3, limit := 5 } : Consumer Nat)
        (some (.errVal "boom"))).1.cursor = "cur" :=
  ⟨(next_error_behavior _ "boom" (Or.inr (by decide))).1,
   (next_error_behavior _ "boom" (Or.inr (by decide))).2.1,
   (next_error_behavior _ "boom" (Or.inr (by decide))).2.2.1⟩

/-! ## C2: per-item cursors computed by the producer -/

/-- C2 (counterexample).  Resuming with `skip = 1` from a three-item page
(self link `S`, next link `N`): the first delivered item is the second item
of the page, i.e. position 1 (1-based) of the already-skipped page, but the
producer attaches offset `skip + i + 1 = 2`, not 1 as the claim states. -/
theorem item_cursor_offset_counterexample :
    iterate
        (fun l => if l = "u0"
                  then FetchResult.page [10, 20, 30] { self := "S", next := "N" }
                  else FetchResult.page [] { self := "", next := "" })
        2 { links := { self := "", next := "u0" }, skip := 1, sent := 0, limit := 0 } =
      [.fetch "u0", .item 20 { link := "S", offset := 2 },
       .item 30 { link := "N", offset := 0 }, .fetch "N", .closed] ∧
    ({ link := "S", offset := 2 } : Cursor) ≠ { link := "S", offset := 1 } := by
  exact ⟨by decide, by decide⟩

theorem sendObjects_get {α : Type} (self next : String) (skip : Int) (total : Nat) :
    ∀ (l : List α) (i0 j : Nat) (h : j < l.length),
      (sendObjects self next skip total i0 l)[j]? =
        some (.item (l.get ⟨j, h⟩)
          (if i0 + j = total - 1 then { link := next, offset := 0 }
           else { link := self, offset := skip + (i0 : Int) + (j : Int) + 1 })) := by
  intro l
  induction l with
  | nil => intro i0 j h; simp at h
  | cons x rest ih =>
    intro i0 j h
    cases j with
    | zero => simp [sendObjects]
    | succ j2 =>
      have h2 : j2 < rest.length := by simpa using h
      have := ih (i0 + 1) j2 h2
      rw [sendObjects]
      simp only [List.getElem?_cons_succ, List.get_cons_succ]
      rw [this]
      have harith : i0 + 1 + j2 = i0 + (j2 + 1) := by omega
      rw [harith]
      have hoff : skip + ((i0 : Int) + 1) + (j2 : Int) + 1 =
          skip + (i0 : Int) + ((j2 : Int) + 1) + 1 := by ring
      push_cast
      rw [hoff]

/-- C2 (amended).  For each item the producer delivers from a page: the last
item of the (already-skipped) page carries the page's next link with offset
0; every other item carries the page's self link with offset `skip` plus the
item's 1-based position within the already-skipped page — equivalently, its
1-based position within the page as fetched (the code computes
`skip + i + 1`, not the position within the skipped page alone). -/
theorem item_cursor_assignment {α : Type} (self next : String) (skip : Int)
    (objs : List α) (j : Nat) (h : j < objs.length) :
    (sendObjects self next skip objs.length 0 objs)[j]? =
      some (.item (objs.get ⟨j, h⟩)
        (if j = objs.length - 1 then { link := next, offset := 0 }
         else { link := self, offset := skip + ((j : Int) + 1) })) := by
  have := sendObjects_get self next skip objs.length objs 0 j h
  simpa [add_assoc] using this

/-- Witness for `item_cursor_assignment`: in a three-item page entered with
`skip = 1`, the item at index 0 of the skipped page gets offset 2, the item
at index 1 (the last) gets the next link with offset 0. -/
theorem item_cursor_assignment_witness :
    (0 : Nat) < ([20, 30] : List Nat).length ∧
    (sendObjects "S" "N" 1 ([20, 30] : List Nat).length 0 [20, 30])[0]? =
      some (.item 20 { link := "S", offset := 1 + ((0 : Int) + 1) }) :=
  ⟨by decide, by
    have := item_cursor_assignment "S" "N" 1 ([20, 30] : List Nat) 0 (by decide)
    simpa using this⟩

/-! ## C9: limit enforcement -/

theorem iterNext_limit {α : Type} (st : Consumer α) (r : Option (ChanItem α)) :
    (iterNext st r).1.limit = st.limit := by
  unfold iterNext
  by_cases hc : 0 < st.limit ∧ st.count = st.limit
  · simp [hc]
  · rcases r with _ | x
    · simp [hc]
    · cases x <;> simp [hc]

theorem iterNext_count_le {α : Type} (st : Consumer α) (r : Option (ChanItem α))
    (h0 : 0 < st.limit) (h : st.count ≤ st.limit) :
    (iterNext st r).1.count ≤ st.limit := by
  unfold iterNext
  by_cases hc : 0 < st.limit ∧ st.count = st.limit
  · simp only [hc, if_true, if_pos]
    exact h
  · have hlt : st.count < st.limit := by
      rcases lt_or_eq_of_le h with h1 | h1
      · exact h1
      · exact absurd ⟨h0, h1⟩ hc
    rcases r with _ | x
    · simpa [hc] using h
    · cases x <;> simp [hc] <;> omega

theorem runConsumer_count_le {α : Type} (recvs : List (Option (ChanItem α))) :
    ∀ (st : Consumer α), 0 < st.limit → st.count ≤ st.limit →
      (runConsumer st recvs).count ≤ st.limit := by
  induction recvs with
  | nil => intro st _ h; exact h
  | cons r rest ih =>
    intro st h0 h
    have hl := iterNext_limit st r
    have step : runConsumer st (r :: rest) = runConsumer (iterNext st r).1 rest := rfl
    rw [step, ← hl]
    exact ih (iterNext st r).1 (hl ▸ h0) (hl ▸ iterNext_count_le st r h0 h)

theorem fetchRespectsLimit_sendObjects {α : Type} (limit : Int) (self next : String)
    (skip : Int) (total : Nat) :
    ∀ (l : List α) (i : Nat) (c : Int) (rest : List (Event α)),
      fetchRespectsLimit limit c (sendObjects self next skip total i l ++ rest) =
        fetchRespectsLimit limit (c + (l.length : Int)) rest := by
  intro l
  induction l with
  | nil => intro i c rest; simp [sendObjects]
  | cons x xs ih =>
    intro i c rest
    rw [sendObjects]
    simp only [List.cons_append]
    rw [fetchRespectsLimit, ih (i + 1) (c + 1) rest]
    congr 1
    simp only [List.length_cons]
    push_cast
    ring

theorem iterate_fetch_limit {α : Type} (fetch : String → FetchResult α) :
    ∀ (fuel : Nat) (st : Producer), 0 < st.limit →
      fetchRespectsLimit st.limit st.sent (iterate fetch fuel st) = true := by
  intro fuel
  induction fuel with
  | zero => intro st _; rfl
  | succ f ih =>
    intro st h
    rw [iterate]
    by_cases hcond : st.limit = 0 ∨ st.sent < st.limit
    · rw [if_pos hcond]
      have hsent : st.sent < st.limit := by
        rcases hcond with h1 | h1
        · omega
        · exact h1
      cases hfr : fetch st.links.next with
      | err e =>
        by_cases hskip : st.skip < 0 ∨ 0 < st.skip <;>
          simp [hskip, hsent, fetchRespectsLimit]
      | page objs links2 =>
        simp only []
        by_cases hskip : st.skip < 0 ∨ (objs.length : Int) < st.skip
        · simp [hskip, hsent, fetchRespectsLimit]
        · rw [if_neg hskip]
          rw [fetchRespectsLimit, fetchRespectsLimit_sendObjects, Bool.and_eq_true]
          refine ⟨by simpa using hsent, ?_⟩
          split
          · simp [fetchRespectsLimit]
          · have := ih { st with links := links2, skip := 0,
                                 sent := st.sent + ((objs.drop st.skip.toNat).length : Int) }
                (by simpa using h)
            simpa using this
    · rw [if_neg hcond]
      rfl

/-- C9.  With a positive limit `L`: (1) after every sequence of `Next`
calls, the count of yielded items never exceeds `L`; (2) once the count
equals the limit, `Next` returns false immediately, leaving the state
untouched (no channel receive); (3) the background producer performs no
page request once it has sent `L` items — every `fetch` event in any
producer trace happens while the number of items sent so far is strictly
below `L`. -/
theorem limit_enforcement {α : Type} (L : Int) (hL : 0 < L) :
    (∀ recvs : List (Option (ChanItem α)),
        (runConsumer ({ limit := L } : Consumer α) recvs).count ≤ L) ∧
    (∀ (st : Consumer α) (r : Option (ChanItem α)), st.limit = L → st.count = L →
        iterNext st r = (st, false)) ∧
    (∀ (fetch : String → FetchResult α) (fuel : Nat) (st : Producer), st.limit = L →
        fetchRespectsLimit L st.sent (iterate fetch fuel st) = true) := by
  refine ⟨?_, ?_, ?_⟩
  · intro recvs
    exact runConsumer_count_le recvs { limit := L } hL (le_of_lt hL)
  · intro st r h1 h2
    unfold iterNext
    rw [if_pos ⟨h1 ▸ hL, h2.trans h1.symm⟩]
  · intro fetch fuel st h1
    exact h1 ▸ iterate_fetch_limit fetch fuel st (h1 ▸ hL)

/-- Witness for `limit_enforcement`: with `limit = 1` and two delivered
items the consumer still counts at most one, and a producer over a four-item
collection with `limit = 1` produces a limit-respecting trace. -/
theorem limit_enforcement_witness :
    (0 : Int) < 1 ∧
    (runConsumer ({ limit := 1 } : Consumer Nat)
        [some (.co 10 { link := "S", offset := 0 }),
         some (.co 11 { link := "S", offset := 0 })]).count ≤ 1 ∧
    fetchRespectsLimit 1 0
        (iterate (fun _ => FetchResult.page [1, 2, 3, 4] { self := "S", next := "N" })
          3 { links := { self := "", next := "u" }, skip := 0, sent := 0, limit := 1 }) =
      true :=
  ⟨by decide, (limit_enforcement 1 (by decide)).1 _,
   by
    simpa using (limit_enforcement 1 (by decide)).2.2
      (fun _ => FetchResult.page [1, 2, 3, 4] { self := "S", next := "N" }) 3
      { links := { self := "", next := "u" }, skip := 0, sent := 0, limit := 1 } rfl⟩

/-! ## C10: the unchecked slice in the producer -/

theorem panicked_not_mem_sendObjects {α : Type} (self next : String) (skip : Int)
    (total : Nat) :
    ∀ (l : List α) (i : Nat), Event.panicked ∉ sendObjects self next skip total i l := by
  intro l
  induction l with
  | nil => intro i; simp [sendObjects]
  | cons x xs ih => intro i; simp [sendObjects, ih (i + 1)]

theorem iterate_no_panic_of_skip_zero {α : Type} (fetch : String → FetchResult α) :
    ∀ (fuel : Nat) (st : Producer), st.skip = 0 →
      Event.panicked ∉ iterate fetch fuel st := by
  intro fuel
  induction fuel with
  | zero => intro st _; simp [iterate]
  | succ f ih =>
    intro st h
    rw [iterate]
    by_cases hcond : st.limit = 0 ∨ st.sent < st.limit
    · rw [if_pos hcond]
      cases hfr : fetch st.links.next with
      | err e => simp [h]
      | page objs links2 =>
        simp only []
        have hskip : ¬(st.skip < 0 ∨ (objs.length : Int) < st.skip) := by
          rw [h]
          push_neg
          exact ⟨by omega, by positivity⟩
        rw [if_neg hskip]
        simp only [List.mem_cons, List.mem_append, not_or]
        refine ⟨by simp, ?_, ?_⟩
        · intro hmem
          exact panicked_not_mem_sendObjects _ _ _ _ _ _ hmem
        · split
          · simp
          · exact ih _ rfl
    · rw [if_neg hcond]
      simp

/-- C10.  The producer loop evaluates `objects[skip:]` without a bounds
check: starting from a fresh iterator state (`sent = 0`, non-negative
limit), the trace contains a panic exactly when the initial skip count (the
decoded cursor's offset) is not between 0 and the number of items returned
by the first fetch — in particular, when the first fetch returns an error
(leaving a nil item list) while `skip > 0`, the producer panics right after
sending the error value, instead of closing the channel normally. -/
theorem iterate_panic_characterization {α : Type} (fetch : String → FetchResult α)
    (fuel : Nat) (links : Links) (skip limit : Int)
    (hfuel : 1 ≤ fuel) (hlim : 0 ≤ limit) :
    (Event.panicked ∈
        iterate fetch fuel { links := links, skip := skip, sent := 0, limit := limit } ↔
      ¬(0 ≤ skip ∧ skip ≤ (fetchLen (fetch links.next) : Int))) ∧
    (∀ e, fetch links.next = .err e → 0 < skip →
      Event.panicked ∈
        iterate fetch fuel { links := links, skip := skip, sent := 0, limit := limit }) := by
  obtain ⟨f, rfl⟩ : ∃ f, fuel = f + 1 := ⟨fuel - 1, by omega⟩
  have hmain : Event.panicked ∈
      iterate fetch (f + 1) { links := links, skip := skip, sent := 0, limit := limit } ↔
      ¬(0 ≤ skip ∧ skip ≤ (fetchLen (fetch links.next) : Int)) := by
    rw [iterate]
    have hcond : limit = 0 ∨ (0 : Int) < limit := by omega
    rw [if_pos hcond]
    cases hfr : fetch links.next with
    | err e =>
      simp only [fetchLen, Nat.cast_zero]
      by_cases hskip : skip < 0 ∨ 0 < skip
      · simp [hskip]
        omega
      · simp [hskip]
        omega
    | page objs links2 =>
      simp only [fetchLen]
      by_cases hskip : skip < 0 ∨ (objs.length : Int) < skip
      · rw [if_pos hskip]
        simp
        omega
      · rw [if_neg hskip]
        simp only [List.mem_cons, List.mem_append]
        constructor
        · rintro (h1 | h1 | h1)
          · exact absurd h1 (by simp)
          · exact absurd h1 (panicked_not_mem_sendObjects _ _ _ _ _ _)
          · exfalso
            by_cases hend : (objs.drop skip.toNat).length = 0 ∨ links2.next = ""
            · rw [if_pos hend] at h1
              simp at h1
            · rw [if_neg hend] at h1
              exact iterate_no_panic_of_skip_zero fetch f _ rfl h1
        · intro hbad
          exact absurd (by omega : 0 ≤ skip ∧ skip ≤ (objs.length : Int)) hbad
  refine ⟨hmain, fun e hfr hskip => hmain.2 ?_⟩
  rw [hfr]
  simp only [fetchLen, Nat.cast_zero]
  omega

/-- Witness for `iterate_panic_characterization`: a first fetch that fails
while the decoded cursor's offset is 2 makes the producer panic. -/
theorem iterate_panic_witness :
    Event.panicked ∈
      iterate (fun _ => (FetchResult.err "fetch failed" : FetchResult Nat)) 1
        { links := {}, skip := 2, sent := 0, limit := 0 } :=
  (iterate_panic_characterization (fun _ => (FetchResult.err "fetch failed" : FetchResult Nat))
      1 {} 2 0 (by decide) (by decide)).2 "fetch failed" rfl (by decide)

/-! ## C8: iterator construction -/

/-- C8.  At iterator construction: a non-empty `options.Cursor` is decoded,
its link becomes the first fetch link and its offset the initial skip count,
with `BatchSize` and `Filter` (and the URL) having no influence; a cursor
that fails to decode makes construction fail with that error; with an empty
cursor the first fetch link is the given URL extended with a `limit`
parameter exactly when `BatchSize > 0` and a `filter` parameter exactly when
`Filter` is non-empty, and the initial skip count is 0. -/
theorem iterator_construction :
    (∀ (u : GoURL) (options : IteratorOptions) (c : Cursor),
        options.cursor ≠ "" → cursorDecode options.cursor = .ok c →
        newIterator u options =
          .ok { limit := options.limit, linksNext := c.link, skip := c.offset }) ∧
    (∀ (u u2 : GoURL) (options : IteratorOptions) (b : Int) (f : String),
        options.cursor ≠ "" →
        newIterator u2 { options with batchSize := b, filter := f } =
          newIterator u options) ∧
    (∀ (u : GoURL) (options : IteratorOptions) (e : String),
        options.cursor ≠ "" → cursorDecode options.cursor = .error e →
        newIterator u options = .error e) ∧
    (∀ (u : GoURL) (options : IteratorOptions),
        options.cursor = "" →
        newIterator u options =
          .ok { limit := options.limit
                linksNext := GoURL.render
                  { u with query :=
                      (u.query ++
                        (if options.batchSize > 0
                         then [("limit", String.mk (intChars options.batchSize))] else [])) ++
                      (if options.filter ≠ "" then [("filter", options.filter)] else []) }
                skip := 0 }) := by
  refine ⟨?_, ?_, ?_, ?_⟩
  · intro u options c h hdec
    rw [newIterator, if_pos h, hdec]
  · intro u u2 options b f h
    rw [newIterator, newIterator]
    simp only [h, if_pos, ite_not]
    rfl
  · intro u options e h hdec
    rw [newIterator, if_pos h, hdec]
  · intro u options h
    rw [newIterator, if_neg (by simp [h])]

/-- Witness for `iterator_construction` at concrete inputs: a decodable
cursor provides link and skip and makes batch size and filter irrelevant, an
undecodable cursor fails construction, and an empty cursor builds the link
from the URL and the options. -/
theorem iterator_construction_witness :
    newIterator { base := "https://api/v3/files" }
        { limit := 7, batchSize := 40, cursor := cursorEncode { link := "La", offset := 2 },
          filter := "f" } =
      .ok { limit := 7, linksNext := "La", skip := 2 } ∧
    newIterator { base := "u" } { cursor := "!" } = .error "invalid cursor" ∧
    newIterator { base := "u" } { batchSize := 2, filter := "f" } =
      .ok { limit := 0, linksNext := "u?filter=f&limit=2", skip := 0 } := by
  refine ⟨iterator_construction.1 _ _ { link := "La", offset := 2 } (by decide) (by rfl),
    iterator_construction.2.2.1 _ _ "invalid cursor" (by decide) (by rfl),
    (iterator_construction.2.2.2 { base := "u" } { batchSize := 2, filter := "f" }
        rfl).trans ?_⟩
  rfl

/-! ## C1: the cursor codec round trip

The codec is proved stage by stage: decimal rendering/parsing of the
offset, JSON string escaping/unescaping of the link, the serialized cursor
object, UTF-8, the DEFLATE collaborator model, and base64.  Because
`cursor.encode` never closes its `base64.NewEncoder`, the final partial
quantum of the compressed stream is dropped from the encoding; the round
trip is therefore only guaranteed when the compressed stream's length is a
multiple of three (nothing is dropped), and a counterexample below shows an
encoded cursor that fails to decode because of a dropped trailing byte. -/

theorem digitVal_digitChar (d : Nat) (h : d < 10) :
    digitVal (digitChar d) = some d := by
  interval_cases d <;> decide

theorem hexVal_hexDigitChar (d : Nat) (h : d < 16) :
    hexVal (hexDigitChar d) = some d := by
  interval_cases d <;> decide

theorem b64Val_b64Char (n : Nat) (h : n < 64) :
    b64Val (b64Char n) = some n := by
  interval_cases n <;> decide

theorem natDigitsAux_eq (fuel : Nat) :
    ∀ n : Nat, n ≤ fuel →
      natDigitsAux fuel n = (Nat.digits 10 n).reverse.map digitChar := by
  induction fuel with
  | zero =>
    intro n h
    have h0 : n = 0 := by omega
    subst h0
    simp [natDigitsAux]
  | succ f ih =>
    intro n h
    rw [natDigitsAux]
    by_cases hn : n = 0
    · subst hn; simp
    · rw [if_neg hn]
      rw [ih (n / 10) (by omega)]
      rw [Nat.digits_def' (by norm_num : (1 : Nat) < 10) (Nat.pos_of_ne_zero hn)]
      simp

theorem natDigits_eq (n : Nat) :
    natDigits n = if n = 0 then ['0']
                  else (Nat.digits 10 n).reverse.map digitChar := by
  rw [natDigits]
  by_cases h : n = 0
  · simp [h]
  · rw [if_neg h, if_neg h, natDigitsAux_eq n n le_rfl]

theorem natDigits_all_digits (n : Nat) :
    ∀ c ∈ natDigits n, (digitVal c).isSome := by
  rw [natDigits_eq]
  by_cases h : n = 0
  · rw [if_pos h]
    intro c hc
    rw [List.mem_singleton] at hc
    subst hc
    decide
  · rw [if_neg h]
    intro c hc
    simp only [List.mem_map, List.mem_reverse] at hc
    obtain ⟨d, hd, rfl⟩ := hc
    have hd10 : d < 10 := Nat.digits_lt_base (by norm_num) hd
    rw [digitVal_digitChar d hd10]
    rfl

theorem natDigits_ne_nil (n : Nat) : natDigits n ≠ [] := by
  rw [natDigits_eq]
  by_cases h : n = 0
  · simp [h]
  · simp [h, Nat.digits_ne_nil_iff_ne_zero]

theorem foldr_ofDigits (l : List Nat) :
    l.foldr (fun d y => 10 * y + d) 0 = Nat.ofDigits 10 l := by
  induction l with
  | nil => rfl
  | cons d rest ih =>
    simp only [List.foldr_cons, Nat.ofDigits_cons, ih]
    ring

theorem natDigits_val (n : Nat) :
    digitsToNat ((natDigits n).map (fun c => (digitVal c).getD 0)) = n := by
  rw [natDigits_eq]
  by_cases h : n = 0
  · subst h; decide
  · rw [if_neg h]
    have hmap : ((Nat.digits 10 n).reverse.map digitChar).map
          (fun c => (digitVal c).getD 0) = (Nat.digits 10 n).reverse := by
      rw [List.map_map]
      have : ∀ d ∈ (Nat.digits 10 n).reverse,
          ((fun c => (digitVal c).getD 0) ∘ digitChar) d = d := by
        intro d hd
        have hd10 : d < 10 := Nat.digits_lt_base (by norm_num) (List.mem_reverse.1 hd)
        simp [Function.comp, digitVal_digitChar d hd10]
      calc ((Nat.digits 10 n).reverse.map ((fun c => (digitVal c).getD 0) ∘ digitChar))
          = (Nat.digits 10 n).reverse.map id := List.map_congr_left this
        _ = (Nat.digits 10 n).reverse := List.map_id _
    rw [hmap]
    unfold digitsToNat
    rw [List.foldl_reverse]
    have : (fun (x : Nat) (y : Nat) => 10 * y + x) =
        (fun (d : Nat) (y : Nat) => 10 * y + d) := rfl
    rw [this, foldr_ofDigits, Nat.ofDigits_digits]

theorem takeDigits_append (ds : List Char) (c0 : Char) (r : List Char)
    (hds : ∀ c ∈ ds, (digitVal c).isSome) (hc0 : digitVal c0 = none) :
    takeDigits (ds ++ c0 :: r) =
      (ds.map (fun c => (digitVal c).getD 0), c0 :: r) := by
  induction ds with
  | nil => simp [takeDigits, hc0]
  | cons d ds2 ih =>
    obtain ⟨v, hv⟩ : ∃ v, digitVal d = some v :=
      Option.isSome_iff_exists.1 (hds d (by simp))
    rw [List.cons_append, takeDigits, hv, ih (fun c hc => hds c (by simp [hc]))]
    simp [hv]

theorem parseNatChars_natDigits (n : Nat) (c0 : Char) (r : List Char)
    (hc0 : digitVal c0 = none) :
    parseNatChars (natDigits n ++ c0 :: r) = some (n, c0 :: r) := by
  unfold parseNatChars
  rw [takeDigits_append _ _ _ (natDigits_all_digits n) hc0]
  rcases hmap : (natDigits n).map (fun c => (digitVal c).getD 0) with _ | ⟨d, ds⟩
  · exact absurd (List.map_eq_nil_iff.1 hmap) (natDigits_ne_nil n)
  · have hval := natDigits_val n
    rw [hmap] at hval
    show some (digitsToNat (d :: ds), c0 :: r) = some (n, c0 :: r)
    rw [hval]

theorem parseIntChars_intChars (i : Int) (c0 : Char) (r : List Char)
    (hc0 : digitVal c0 = none) :
    parseIntChars (intChars i ++ c0 :: r) = some (i, c0 :: r) := by
  rw [intChars]
  by_cases hneg : i < 0
  · rw [if_pos hneg, List.cons_append, parseIntChars, if_pos rfl,
      parseNatChars_natDigits _ _ _ hc0]
    have : -((i.natAbs : Nat) : Int) = i := by omega
    simp only [Option.map_some', this]
  · rw [if_neg hneg]
    rcases hshape : natDigits i.toNat with _ | ⟨hd, tl⟩
    · exact absurd hshape (natDigits_ne_nil _)
    · have hd_digit : (digitVal hd).isSome := by
        have := natDigits_all_digits i.toNat
        rw [hshape] at this
        exact this hd (by simp)
      have hdne : ¬hd = '-' := by
        intro h
        rw [h] at hd_digit
        simp [digitVal] at hd_digit
      rw [List.cons_append, parseIntChars, if_neg hdne,
        ← List.cons_append, ← hshape, parseNatChars_natDigits _ _ _ hc0]
      have : ((i.toNat : Nat) : Int) = i := by omega
      simp only [Option.map_some', this]

theorem parseLit_append (lit l : List Char) : parseLit lit (lit ++ l) = some l := by
  induction lit with
  | nil => rfl
  | cons c cs ih => simp [parseLit, ih]

set_option maxHeartbeats 1000000 in
theorem parseJson_quote (t : List Char) :
    parseJsonStringBody ('\"' :: t) = some ([], t) := by
  rw [parseJsonStringBody.eq_def]
  simp only []
  rw [if_true]

theorem parseJson_esc_n (t : List Char) :
    parseJsonStringBody ('\\' :: 'n' :: t) = consCh '\n' (parseJsonStringBody t) := by
  rw [parseJsonStringBody.eq_def]
  simp only []
  rw [if_true, if_neg (show ¬ ('\\' = '\"') by decide)]

theorem parseJson_esc_r (t : List Char) :
    parseJsonStringBody ('\\' :: 'r' :: t) = consCh '\r' (parseJsonStringBody t) := by
  rw [parseJsonStringBody.eq_def]
  simp only []
  rw [if_true, if_neg (show ¬ ('\\' = '\"') by decide)]

theorem parseJson_esc_t (t : List Char) :
    parseJsonStringBody ('\\' :: 't' :: t) = consCh '\t' (parseJsonStringBody t) := by
  rw [parseJsonStringBody.eq_def]
  simp only []
  rw [if_true, if_neg (show ¬ ('\\' = '\"') by decide)]

theorem parseJson_esc_q (t : List Char) :
    parseJsonStringBody ('\\' :: '\"' :: t) = consCh '\"' (parseJsonStringBody t) := by
  rw [parseJsonStringBody.eq_def]
  simp only []
  rw [if_true, if_neg (show ¬ ('\\' = '\"') by decide)]

theorem parseJson_esc_bs (t : List Char) :
    parseJsonStringBody ('\\' :: '\\' :: t) = consCh '\\' (parseJsonStringBody t) := by
  rw [parseJsonStringBody.eq_def]
  simp only []
  rw [if_true, if_neg (show ¬ ('\\' = '\"') by decide)]

theorem parseJson_u (h1 h2 h3 h4 : Char) (t : List Char) :
    parseJsonStringBody ('\\' :: 'u' :: h1 :: h2 :: h3 :: h4 :: t) =
      match hexVal h1, hexVal h2, hexVal h3, hexVal h4 with
      | some v1, some v2, some v3, some v4 =>
          consCh (uCharOfNat (4096 * v1 + 256 * v2 + 16 * v3 + v4))
            (parseJsonStringBody t)
      | _, _, _, _ => none := by
  rw [parseJsonStringBody.eq_def]
  simp only []
  rw [if_true, if_neg (show ¬ ('\\' = '\"') by decide)]

theorem parseJson_plain (c : Char) (t : List Char) (h1 : ¬c = '\"')
    (h2 : ¬c = '\\') :
    parseJsonStringBody (c :: t) = consCh c (parseJsonStringBody t) := by
  rw [parseJsonStringBody.eq_def]
  simp only []
  rw [if_neg h1, if_neg h2]

theorem parse_escape_char (c : Char) (t : List Char) :
    parseJsonStringBody (jsonEscapeChar c ++ t) = consCh c (parseJsonStringBody t) := by
  by_cases h1 : c = '\"'
  · subst h1
    exact parseJson_esc_q t
  · by_cases h2 : c = '\\'
    · subst h2
      exact parseJson_esc_bs t
    · by_cases h3 : c = '\n'
      · subst h3
        exact parseJson_esc_n t
      · by_cases h4 : c = '\r'
        · subst h4
          exact parseJson_esc_r t
        · by_cases h5 : c = '\t'
          · subst h5
            exact parseJson_esc_t t
          · by_cases h6 : c.toNat < 32
            · rw [jsonEscapeChar, if_neg h1, if_neg h2, if_neg h3, if_neg h4,
                if_neg h5, if_pos h6]
              show parseJsonStringBody
                  ('\\' :: 'u' :: '0' :: '0' :: hexDigitChar (c.toNat / 16) ::
                    hexDigitChar (c.toNat % 16) :: t) = consCh c (parseJsonStringBody t)
              rw [parseJson_u, hexVal_hexDigitChar (c.toNat / 16) (by omega),
                hexVal_hexDigitChar (c.toNat % 16) (by omega),
                show hexVal '0' = some 0 from rfl]
              simp only []
              have hv : 4096 * 0 + 256 * 0 + 16 * (c.toNat / 16) + c.toNat % 16 =
                  c.toNat := by omega
              rw [hv, uCharOfNat, if_pos (by omega), Char.ofNat_toNat]
            · by_cases h7 : c = '<'
              · subst h7
                show parseJsonStringBody ('\\' :: 'u' :: '0' :: '0' :: '3' :: 'c' :: t) =
                  consCh '<' (parseJsonStringBody t)
                rw [parseJson_u]
                rfl
              · by_cases h8 : c = '>'
                · subst h8
                  show parseJsonStringBody ('\\' :: 'u' :: '0' :: '0' :: '3' :: 'e' :: t) =
                    consCh '>' (parseJsonStringBody t)
                  rw [parseJson_u]
                  rfl
                · by_cases h9 : c = '&'
                  · subst h9
                    show parseJsonStringBody ('\\' :: 'u' :: '0' :: '0' :: '2' :: '6' :: t) =
                      consCh '&' (parseJsonStringBody t)
                    rw [parseJson_u]
                    rfl
                  · by_cases h10 : c.toNat = 0x2028
                    · have hc : c = Char.ofNat 0x2028 := by
                        rw [← Char.ofNat_toNat c, h10]
                      rw [hc]
                      show parseJsonStringBody ('\\' :: 'u' :: '2' :: '0' :: '2' :: '8' :: t) =
                        consCh (Char.ofNat 0x2028) (parseJsonStringBody t)
                      rw [parseJson_u]
                      rfl
                    · by_cases h11 : c.toNat = 0x2029
                      · have hc : c = Char.ofNat 0x2029 := by
                          rw [← Char.ofNat_toNat c, h11]
                        rw [hc]
                        show parseJsonStringBody ('\\' :: 'u' :: '2' :: '0' :: '2' :: '9' :: t) =
                          consCh (Char.ofNat 0x2029) (parseJsonStringBody t)
                        rw [parseJson_u]
                        rfl
                      · rw [jsonEscapeChar, if_neg h1, if_neg h2, if_neg h3,
                          if_neg h4, if_neg h5, if_neg h6, if_neg h7, if_neg h8,
                          if_neg h9, if_neg h10, if_neg h11]
                        show parseJsonStringBody (c :: t) = consCh c (parseJsonStringBody t)
                        exact parseJson_plain c t h1 h2

theorem parse_escape_list (s t : List Char) :
    parseJsonStringBody (jsonEscapeList s ++ '\"' :: t) = some (s, t) := by
  induction s with
  | nil =>
    show parseJsonStringBody ('\"' :: t) = some ([], t)
    exact parseJson_quote t
  | cons c rest ih =>
    rw [jsonEscapeList, List.append_assoc, parse_escape_char, ih]
    rfl

theorem parseCursorJson_encode (c : Cursor) :
    parseCursorJson (jsonEncodeCursor c) = some c := by
  unfold parseCursorJson jsonEncodeCursor
  rw [parseLit_append]
  simp only []
  rw [parse_escape_list]
  simp only []
  rw [parseLit_append]
  simp only []
  rw [parseIntChars_intChars c.offset '}' ['\n'] (by decide)]
  rfl

theorem char_valid (c : Char) :
    c.toNat < 0xD800 ∨ (0xE000 ≤ c.toNat ∧ c.toNat < 0x110000) := c.valid

theorem uCharOfNat_toNat (c : Char) : uCharOfNat c.toNat = c := by
  rw [uCharOfNat]
  rcases char_valid c with h | h
  · rw [if_pos (by omega)]
    exact Char.ofNat_toNat c
  · rw [if_neg (by omega), if_pos (by omega)]
    exact Char.ofNat_toNat c

theorem utf8DecodeList_cons (b : Nat) (t : List Nat) :
    utf8DecodeList (b :: t) =
      (if b < 0x80 then consC (Char.ofNat b) (utf8DecodeList t)
       else if b < 0xC0 then none
       else if b < 0xE0 then utf8Cont1 (b - 0xC0) t
       else if b < 0xF0 then utf8Cont2 (b - 0xE0) t
       else if b < 0xF8 then utf8Cont3 (b - 0xF0) t
       else none) := rfl

theorem utf8Cont1_cons (a b : Nat) (t : List Nat) :
    utf8Cont1 a (b :: t) =
      (if isCont b then consC (uCharOfNat (a * 64 + (b - 0x80))) (utf8DecodeList t)
       else none) := rfl

theorem utf8Cont2_cons (a b : Nat) (t : List Nat) :
    utf8Cont2 a (b :: t) =
      (if isCont b then utf8Cont1 (a * 64 + (b - 0x80)) t else none) := rfl

theorem utf8Cont3_cons (a b : Nat) (t : List Nat) :
    utf8Cont3 a (b :: t) =
      (if isCont b then utf8Cont2 (a * 64 + (b - 0x80)) t else none) := rfl

theorem isCont_true (b : Nat) (h1 : 0x80 ≤ b) (h2 : b < 0xC0) :
    isCont b = true := by
  simp only [isCont, Bool.and_eq_true, decide_eq_true_eq]
  omega

theorem utf8_decode_encode_char (c : Char) (t : List Nat) :
    utf8DecodeList (utf8EncodeChar c ++ t) = consC c (utf8DecodeList t) := by
  have hvalid := char_valid c
  unfold utf8EncodeChar
  by_cases hv1 : c.toNat < 0x80
  · rw [if_pos hv1, List.cons_append, List.nil_append, utf8DecodeList_cons,
      if_pos hv1, Char.ofNat_toNat]
  · rw [if_neg hv1]
    by_cases hv2 : c.toNat < 0x800
    · rw [if_pos hv2,
        show ([0xC0 + c.toNat / 64, 0x80 + c.toNat % 64] ++ t : List Nat) =
          (0xC0 + c.toNat / 64) :: (0x80 + c.toNat % 64) :: t from rfl,
        utf8DecodeList_cons, if_neg (by omega), if_neg (by omega),
        if_pos (by omega), utf8Cont1_cons,
        if_pos (isCont_true _ (by omega) (by omega)),
        show (0xC0 + c.toNat / 64 - 0xC0) * 64 + (0x80 + c.toNat % 64 - 0x80) =
          c.toNat by omega, uCharOfNat_toNat]
    · rw [if_neg hv2]
      by_cases hv3 : c.toNat < 0x10000
      · rw [if_pos hv3,
          show ([0xE0 + c.toNat / 4096, 0x80 + c.toNat / 64 % 64,
                 0x80 + c.toNat % 64] ++ t : List Nat) =
            (0xE0 + c.toNat / 4096) :: (0x80 + c.toNat / 64 % 64) ::
              (0x80 + c.toNat % 64) :: t from rfl,
          utf8DecodeList_cons, if_neg (by omega), if_neg (by omega),
          if_neg (by omega), if_pos (by omega), utf8Cont2_cons,
          if_pos (isCont_true _ (by omega) (by omega)), utf8Cont1_cons,
          if_pos (isCont_true _ (by omega) (by omega)),
          show ((0xE0 + c.toNat / 4096 - 0xE0) * 64 +
                  (0x80 + c.toNat / 64 % 64 - 0x80)) * 64 +
                (0x80 + c.toNat % 64 - 0x80) = c.toNat by omega, uCharOfNat_toNat]
      · rw [if_neg hv3]
        have hv4 : c.toNat < 0x110000 := by omega
        rw [show ([0xF0 + c.toNat / 262144, 0x80 + c.toNat / 4096 % 64,
                   0x80 + c.toNat / 64 % 64, 0x80 + c.toNat % 64] ++ t : List Nat) =
            (0xF0 + c.toNat / 262144) :: (0x80 + c.toNat / 4096 % 64) ::
              (0x80 + c.toNat / 64 % 64) :: (0x80 + c.toNat % 64) :: t from rfl,
          utf8DecodeList_cons, if_neg (by omega), if_neg (by omega),
          if_neg (by omega), if_neg (by omega), if_pos (by omega), utf8Cont3_cons,
          if_pos (isCont_true _ (by omega) (by omega)), utf8Cont2_cons,
          if_pos (isCont_true _ (by omega) (by omega)), utf8Cont1_cons,
          if_pos (isCont_true _ (by omega) (by omega)),
          show (((0xF0 + c.toNat / 262144 - 0xF0) * 64 +
                   (0x80 + c.toNat / 4096 % 64 - 0x80)) * 64 +
                  (0x80 + c.toNat / 64 % 64 - 0x80)) * 64 +
                (0x80 + c.toNat % 64 - 0x80) = c.toNat by omega, uCharOfNat_toNat]

theorem utf8_roundtrip (s : List Char) :
    utf8DecodeList (utf8EncodeList s) = some s := by
  induction s with
  | nil => rfl
  | cons c rest ih =>
    rw [utf8EncodeList, utf8_decode_encode_char, ih]
    rfl

theorem utf8EncodeChar_lt_256 (c : Char) : ∀ b ∈ utf8EncodeChar c, b < 256 := by
  have hvalid := char_valid c
  unfold utf8EncodeChar
  intro b hb
  by_cases hv1 : c.toNat < 0x80
  · rw [if_pos hv1] at hb
    simp only [List.mem_singleton] at hb
    omega
  · rw [if_neg hv1] at hb
    by_cases hv2 : c.toNat < 0x800
    · rw [if_pos hv2] at hb
      simp only [List.mem_cons, List.not_mem_nil, or_false] at hb
      rcases hb with rfl | rfl <;> omega
    · rw [if_neg hv2] at hb
      by_cases hv3 : c.toNat < 0x10000
      · rw [if_pos hv3] at hb
        simp only [List.mem_cons, List.not_mem_nil, or_false] at hb
        rcases hb with rfl | rfl | rfl <;> omega
      · rw [if_neg hv3] at hb
        have hv4 : c.toNat < 0x110000 := by omega
        simp only [List.mem_cons, List.not_mem_nil, or_false] at hb
        rcases hb with rfl | rfl | rfl | rfl <;> omega

theorem utf8EncodeList_lt_256 (s : List Char) : ∀ b ∈ utf8EncodeList s, b < 256 := by
  induction s with
  | nil => intro b hb; cases hb
  | cons c rest ih =>
    intro b hb
    rw [utf8EncodeList, List.mem_append] at hb
    rcases hb with hb | hb
    · exact utf8EncodeChar_lt_256 c b hb
    · exact ih b hb

theorem flateDecompress_cons (k b : Nat) (rest : List Nat) :
    flateDecompress (k :: b :: rest) =
      if k = 0 then none
      else (flateDecompress rest).map (fun bs => List.replicate k b ++ bs) := rfl

theorem rleStep_roundtrip :
    ∀ (l : List Nat) (b k : Nat), 1 ≤ k →
      flateDecompress (rleStep l b k) = some (List.replicate k b ++ l) := by
  intro l
  induction l with
  | nil =>
    intro b k hk
    rw [rleStep, flateDecompress_cons, if_neg (by omega)]
    rfl
  | cons x rest ih =>
    intro b k hk
    rw [rleStep]
    by_cases hx : x = b ∧ k < 255
    · rw [if_pos hx, ih b (k + 1) (by omega)]
      obtain ⟨rfl, h255⟩ := hx
      rw [List.replicate_succ']
      simp
    · rw [if_neg hx, flateDecompress_cons, if_neg (by omega), ih x 1 (by omega)]
      simp [List.replicate]

theorem flate_roundtrip (l : List Nat) :
    flateDecompress (flateCompress l) = some l := by
  cases l with
  | nil => rfl
  | cons b rest =>
    rw [flateCompress, rleStep_roundtrip rest b 1 (by omega)]
    simp [List.replicate]

theorem rleStep_lt_256 :
    ∀ (l : List Nat) (b k : Nat), b < 256 → k ≤ 255 → (∀ x ∈ l, x < 256) →
      ∀ y ∈ rleStep l b k, y < 256 := by
  intro l
  induction l with
  | nil =>
    intro b k hb hk _ y hy
    rw [rleStep] at hy
    simp only [List.mem_cons, List.not_mem_nil, or_false] at hy
    rcases hy with rfl | rfl <;> omega
  | cons x rest ih =>
    intro b k hb hk hl y hy
    rw [rleStep] at hy
    by_cases hx : x = b ∧ k < 255
    · rw [if_pos hx] at hy
      exact ih b (k + 1) hb (by omega) (fun z hz => hl z (by simp [hz])) y hy
    · rw [if_neg hx] at hy
      simp only [List.mem_cons] at hy
      rcases hy with rfl | rfl | hy
      · omega
      · omega
      · exact ih x 1 (hl x (by simp)) (by omega)
          (fun z hz => hl z (by simp [hz])) y hy

theorem flateCompress_lt_256 (l : List Nat) (hl : ∀ x ∈ l, x < 256) :
    ∀ y ∈ flateCompress l, y < 256 := by
  cases l with
  | nil => intro y hy; cases hy
  | cons b rest =>
    rw [flateCompress]
    exact rleStep_lt_256 rest b 1 (hl b (by simp)) (by omega)
      (fun z hz => hl z (by simp [hz]))

theorem rleStep_ne_nil : ∀ (l : List Nat) (b k : Nat), rleStep l b k ≠ [] := by
  intro l
  induction l with
  | nil => intro b k; rw [rleStep]; simp
  | cons x rest ih =>
    intro b k
    rw [rleStep]
    by_cases hx : x = b ∧ k < 255
    · rw [if_pos hx]; exact ih b (k + 1)
    · rw [if_neg hx]; simp

theorem b64Decode_cons4 (c1 c2 c3 c4 : Char) (rest : List Char) :
    b64Decode (c1 :: c2 :: c3 :: c4 :: rest) =
      match b64Val c1, b64Val c2, b64Val c3, b64Val c4 with
      | some v1, some v2, some v3, some v4 =>
        (b64Decode rest).map
          (fun bs => (v1 * 4 + v2 / 16) :: (v2 % 16 * 16 + v3 / 4) ::
                     (v3 % 4 * 64 + v4) :: bs)
      | _, _, _, _ => none := rfl

theorem b64_roundtrip :
    ∀ (l : List Nat), (∀ b ∈ l, b < 256) → b64Decode (b64Encode l) = some l
  | [], _ => rfl
  | [b1], h => by
    have hb1 : b1 < 256 := h b1 (by simp)
    show b64Decode [b64Char (b1 / 4), b64Char (b1 % 4 * 16)] = some [b1]
    rw [show b64Decode [b64Char (b1 / 4), b64Char (b1 % 4 * 16)] =
        match b64Val (b64Char (b1 / 4)), b64Val (b64Char (b1 % 4 * 16)) with
        | some v1, some v2 => some [v1 * 4 + v2 / 16]
        | _, _ => none from rfl,
      b64Val_b64Char _ (by omega), b64Val_b64Char _ (by omega)]
    simp only []
    rw [show b1 / 4 * 4 + b1 % 4 * 16 / 16 = b1 by omega]
  | [b1, b2], h => by
    have hb1 : b1 < 256 := h b1 (by simp)
    have hb2 : b2 < 256 := h b2 (by simp)
    show b64Decode [b64Char (b1 / 4), b64Char (b1 % 4 * 16 + b2 / 16),
        b64Char (b2 % 16 * 4)] = some [b1, b2]
    rw [show b64Decode [b64Char (b1 / 4), b64Char (b1 % 4 * 16 + b2 / 16),
          b64Char (b2 % 16 * 4)] =
        match b64Val (b64Char (b1 / 4)), b64Val (b64Char (b1 % 4 * 16 + b2 / 16)),
              b64Val (b64Char (b2 % 16 * 4)) with
        | some v1, some v2, some v3 =>
            some [v1 * 4 + v2 / 16, v2 % 16 * 16 + v3 / 4]
        | _, _, _ => none from rfl,
      b64Val_b64Char _ (by omega), b64Val_b64Char _ (by omega),
      b64Val_b64Char _ (by omega)]
    simp only []
    rw [show b1 / 4 * 4 + (b1 % 4 * 16 + b2 / 16) / 16 = b1 by omega,
      show (b1 % 4 * 16 + b2 / 16) % 16 * 16 + b2 % 16 * 4 / 4 = b2 by omega]
  | b1 :: b2 :: b3 :: rest, h => by
    have hb1 : b1 < 256 := h b1 (by simp)
    have hb2 : b2 < 256 := h b2 (by simp)
    have hb3 : b3 < 256 := h b3 (by simp)
    show b64Decode (b64Char (b1 / 4) :: b64Char (b1 % 4 * 16 + b2 / 16) ::
        b64Char (b2 % 16 * 4 + b3 / 64) :: b64Char (b3 % 64) :: b64Encode rest) =
      some (b1 :: b2 :: b3 :: rest)
    rw [b64Decode_cons4, b64Val_b64Char _ (by omega), b64Val_b64Char _ (by omega),
      b64Val_b64Char _ (by omega), b64Val_b64Char _ (by omega)]
    simp only []
    rw [b64_roundtrip rest (fun x hx => h x (by simp [hx]))]
    simp only [Option.map_some']
    rw [show b1 / 4 * 4 + (b1 % 4 * 16 + b2 / 16) / 16 = b1 by omega,
      show (b1 % 4 * 16 + b2 / 16) % 16 * 16 + (b2 % 16 * 4 + b3 / 64) / 4 = b2 by omega,
      show (b2 % 16 * 4 + b3 / 64) % 4 * 64 + b3 % 64 = b3 by omega]

theorem jsonEncodeCursor_ne_nil (c : Cursor) : jsonEncodeCursor c ≠ [] := by
  simp [jsonEncodeCursor, cursorJsonPrefix]

theorem utf8EncodeChar_ne_nil (c : Char) : utf8EncodeChar c ≠ [] := by
  unfold utf8EncodeChar
  split_ifs <;> simp

theorem utf8EncodeList_ne_nil (s : List Char) (h : s ≠ []) :
    utf8EncodeList s ≠ [] := by
  cases s with
  | nil => exact absurd rfl h
  | cons c rest =>
    rw [utf8EncodeList]
    intro hap
    exact utf8EncodeChar_ne_nil c (List.append_eq_nil.1 hap).1

theorem flateCompress_ne_nil (l : List Nat) (h : l ≠ []) :
    flateCompress l ≠ [] := by
  cases l with
  | nil => exact absurd rfl h
  | cons b rest =>
    rw [flateCompress]
    exact rleStep_ne_nil rest b 1

theorem b64Encode_ne_nil (l : List Nat) (h : l ≠ []) : b64Encode l ≠ [] := by
  rcases l with _ | ⟨b1, _ | ⟨b2, _ | ⟨b3, rest⟩⟩⟩
  · exact absurd rfl h
  · exact List.cons_ne_nil _ _
  · exact List.cons_ne_nil _ _
  · exact List.cons_ne_nil _ _

theorem stringMk_ne_empty (l : List Char) (h : l ≠ []) : String.mk l ≠ "" := by
  intro hc
  exact h (congrArg String.data hc)

theorem b64EncodeNoClose_eq :
    ∀ l : List Nat, l.length % 3 = 0 → b64EncodeNoClose l = b64Encode l
  | [], _ => rfl
  | [_], h => by simp only [List.length_cons, List.length_nil] at h; omega
  | [_, _], h => by simp only [List.length_cons, List.length_nil] at h; omega
  | b1 :: b2 :: b3 :: rest, h => by
    rw [b64EncodeNoClose, b64Encode,
      b64EncodeNoClose_eq rest (by simp only [List.length_cons] at h; omega)]

/-- C1 (counterexample).  The claimed round trip fails on reachable cursors:
`cursor.encode` never closes its `base64.NewEncoder`, so the final partial
quantum of the compressed stream is dropped, and for the cursor
`{Link: "a", Offset: 0}` — the shape attached to the last item of a page,
and whose compressed serialization's length is not a multiple of three —
the truncated compressed stream no longer decompresses and decoding the
encoded cursor reports an invalid cursor instead of returning the
original cursor. -/
theorem cursor_roundtrip_counterexample :
    ({ link := "a", offset := 0 } : Cursor).link ≠ "" ∧
    cursorDecode (cursorEncode { link := "a", offset := 0 }) =
      .error "invalid cursor" :=
  ⟨by decide, by rfl⟩

/-- C1 (amended).  `cursor.encode` never closes the `base64.NewEncoder` it
writes through, so only complete three-byte groups of the compressed stream
are emitted and a final quantum of one or two bytes is silently dropped.
The round trip is accordingly guaranteed only when nothing is dropped: for
a cursor with a non-empty link whose compressed serialization has length a
multiple of three (and for the empty cursor, encoded as the empty string),
decoding the encoded cursor returns exactly the original cursor; moreover
encoding `{Link: "", Offset: 0}` yields the empty string and decoding the
empty string yields `{Link: "", Offset: 0}` without error. -/
theorem cursor_roundtrip (c : Cursor) (h : c.link ≠ "" ∨ c.offset = 0)
    (hq : c.link ≠ "" →
      (flateCompress (utf8EncodeList (jsonEncodeCursor c))).length % 3 = 0) :
    cursorDecode (cursorEncode c) = .ok c ∧
    cursorEncode { link := "", offset := 0 } = "" ∧
    cursorDecode "" = .ok { link := "", offset := 0 } := by
  refine ⟨?_, rfl, rfl⟩
  by_cases hl : c.link = ""
  · have hoff : c.offset = 0 := by
      rcases h with h | h
      · exact absurd hl h
      · exact h
    rw [cursorEncode, if_pos hl, cursorDecode, if_pos rfl]
    obtain ⟨link, offset⟩ := c
    simp_all
  · rw [cursorEncode, if_neg hl, b64EncodeNoClose_eq _ (hq hl)]
    have hbytes : ∀ y ∈ flateCompress (utf8EncodeList (jsonEncodeCursor c)), y < 256 :=
      flateCompress_lt_256 _ (utf8EncodeList_lt_256 _)
    have hne : String.mk
        (b64Encode (flateCompress (utf8EncodeList (jsonEncodeCursor c)))) ≠ "" :=
      stringMk_ne_empty _ (b64Encode_ne_nil _ (flateCompress_ne_nil _
        (utf8EncodeList_ne_nil _ (jsonEncodeCursor_ne_nil c))))
    rw [cursorDecode, if_neg hne]
    rw [show (String.mk (b64Encode (flateCompress
          (utf8EncodeList (jsonEncodeCursor c))))).data =
        b64Encode (flateCompress (utf8EncodeList (jsonEncodeCursor c))) from rfl]
    rw [b64_roundtrip _ hbytes]
    simp only []
    rw [flate_roundtrip]
    simp only []
    rw [utf8_roundtrip]
    simp only []
    rw [parseCursorJson_encode]

/-- Witness for `cursor_roundtrip` at a concrete cursor whose compressed
serialization is 48 bytes long, a multiple of three, so no byte is
dropped. -/
theorem cursor_roundtrip_witness :
    (({ link := "ab", offset := 3 } : Cursor).link ≠ "" ∧
      (flateCompress (utf8EncodeList
        (jsonEncodeCursor { link := "ab", offset := 3 }))).length % 3 = 0) ∧
    (cursorDecode (cursorEncode { link := "ab", offset := 3 }) =
      .ok { link := "ab", offset := 3 } ∧
    cursorEncode { link := "", offset := 0 } = "" ∧
    cursorDecode "" = .ok { link := "", offset := 0 }) :=
  ⟨⟨by decide, by decide⟩,
    cursor_roundtrip { link := "ab", offset := 3 } (Or.inl (by decide))
      (fun _ => by decide)⟩

end VtGo
